import Mathlib

/-!
Verification development for the seeker module of ALEAPP
(`scripts/search_files.py`): the four `FileSeeker` backends (directory,
tar, zip, web), their pattern matching, extraction caches, and the zip
extended-timestamp decoder.

Modelling conventions:
* The host platform is modelled as POSIX: `os.path.normcase` is the
  identity and `is_platform_windows()` returns `False`, so the
  Windows-only path separator rewriting branches are never taken.
* Python strings are Lean `String`s; byte buffers are `List Nat`.
* External I/O (copying files, writing archive members, HTTP downloads,
  `os.stat`) is represented by oracle functions bundled into a per-backend
  environment structure: a `Bool`-valued oracle tells whether the whole
  `try:` block of filesystem/network operations for one item succeeds
  (any raised exception makes it `false`), and `Nat`-valued oracles give
  the timestamps the operations would report.
* `scripts.ilapfuncs` is not part of the sources; its
  `sanitize_file_path` is therefore an abstract oracle in the
  environments, `logfunc` has no observable effect and is dropped, and
  `is_platform_windows` is the POSIX constant `False` per above.
* An exception that escapes a `search` call (the unbound
  `extracted_path` case of `FileSeekerZip.search`) is modelled by the
  search returning `Except.error ()`; the partially mutated instance
  state at that moment is not observable in the model.
-/

/-- One-character-lookup: does the character list `p` occur as a prefix of
`s`?  Used to model Python `str.startswith` and the scanning step of
`str.replace`. -/
def hasPrefixChars : List Char → List Char → Bool
  | [], _ => true
  | _ :: _, [] => false
  | p :: ps, c :: cs => p == c && hasPrefixChars ps cs

/-- Models Python `str.startswith`. -/
def pyStartsWith (s pre : String) : Bool :=
  hasPrefixChars pre.data s.data

/-- Fuel-driven scanner for Python `str.replace`: scans left to right and
replaces non-overlapping occurrences of `patc` by `repc`.  One unit of
fuel is spent per examined character, so `s.length` fuel always
suffices. -/
def replaceLoop (patc repc : List Char) : Nat → List Char → List Char
  | 0, s => s
  | _ + 1, [] => []
  | fuel + 1, c :: cs =>
    if hasPrefixChars patc (c :: cs) then
      repc ++ replaceLoop patc repc fuel (List.drop (patc.length - 1) cs)
    else
      c :: replaceLoop patc repc fuel cs

/-- Models Python `str.replace` (all occurrences) for a non-empty search
string; the seekers only call it with the non-empty root directory as the
search string. -/
def pyReplace (s pats reps : String) : String :=
  ⟨replaceLoop pats.data reps.data s.data.length s.data⟩

/-- Models Python `s[1:]`: drop the first character. -/
def pyDropFirst (s : String) : String :=
  ⟨s.data.drop 1⟩

/-- Models POSIX `os.path.join` for two components as the seekers use it:
an absolute second component wins, otherwise the components are glued
with a single slash. -/
def osPathJoin (a b : String) : String :=
  if b.data.headD ' ' = '/' then b
  else if a = "" then b
  else if a.data.getLast? = some '/' then a ++ b
  else a ++ "/" ++ b

/-- Helper for the `*` wildcard of `fnmatch`: `starAux k s` is true iff
`k` accepts some suffix of `s` (the regex `.*` may consume any prefix,
including newlines, since `fnmatch.translate` compiles with DOTALL). -/
def starAux (k : List Char → Bool) : List Char → Bool
  | [] => k []
  | c :: cs => k (c :: cs) || starAux k cs

/-- Models the matcher produced by `fnmatch._compile_pattern`: the
translated regex must match the whole candidate (`re.match` of
`(?s:...)\x5cZ`).  `*` matches any sequence of characters, `?` any single
character, and all other characters match themselves.  Character classes
`[...]` are not used by any pattern in this development and are treated
as ordinary characters. -/
def fnmatchList : List Char → List Char → Bool
  | [], s => s.isEmpty
  | p :: ps, s =>
    if p = '*' then starAux (fnmatchList ps) s
    else
      match s with
      | [] => false
      | c :: cs => (if p = '?' then true else p == c) && fnmatchList ps cs

/-- `fnmatch` full-string matching on Lean strings. -/
def fnmatch (pattern s : String) : Bool :=
  fnmatchList pattern.data s.data

/-- Association-list lookup modelling `dict.__getitem__` /
`key in dict`. -/
def lookupA {α : Type} : List (String × α) → String → Option α
  | [], _ => none
  | (k, v) :: rest, key => if key == k then some v else lookupA rest key

/-- Association-list update modelling `dict.__setitem__`. -/
def setA {α : Type} : List (String × α) → String → α → List (String × α)
  | [], key, v => [(key, v)]
  | (k, w) :: rest, key, v =>
    if k == key then (key, v) :: rest else (k, w) :: setA rest key v

/-- `FileInfo` record from `search_files.py`: source identity plus
optional creation/modification timestamps (`None` is `none`, a numeric
timestamp `t` is `some t`). -/
structure FileInfo where
  source_path : String
  creation_date : Option Nat
  modification_date : Option Nat
  deriving DecidableEq

/-- The two shapes a `search` call can return: a single local path (the
`return_on_first_hit` early return) or a list of local paths. -/
inductive SearchResult where
  | single (p : String)
  | many (ps : List String)
  deriving DecidableEq

-- Decidable equality for `Except`, used to state concrete evaluations of
-- `FileSeekerZip.search` and the timestamp decoder.
deriving instance DecidableEq for Except

/-! ## FileSeekerDir -/

/-- I/O oracles for `FileSeekerDir.search`: `copyOk item` tells whether
the `try:` block (makedirs + copyfile + the two `stat` calls) succeeds
for the source file `item`; `ctimeOf`/`mtimeOf` are the stat timestamps
it would report. -/
structure DirEnv where
  copyOk : String → Bool
  ctimeOf : String → Nat
  mtimeOf : String → Nat

/-- Mutable state of a `FileSeekerDir` instance. -/
structure DirSeeker where
  directory : String
  data_folder : String
  all_files : List String
  searched : List (String × List String)
  copied : List (String × String)
  file_infos : List (String × FileInfo)
  deriving DecidableEq

/-- The `for item in self._all_files:` loop of `FileSeekerDir.search`.
Returns `(first_hit_return, pathlist, copied, file_infos)`; the first
component is `some p` exactly when the Python loop executed the
`return data_path` early exit. -/
def dirLoop (env : DirEnv) (directory data_folder : String)
    (force first : Bool) (pat : String → Bool) :
    List String → List String → List (String × String) →
    List (String × FileInfo) →
    Option String × List String × List (String × String) ×
      List (String × FileInfo)
  | [], pathlist, copied, infos => (none, pathlist, copied, infos)
  | item :: rest, pathlist, copied, infos =>
    if pat ("root/" ++ item) then
      let item_rel_path := pyReplace item directory ""
      let data_path := osPathJoin data_folder (pyDropFirst item_rel_path)
      if (lookupA copied item).isNone || force then
        if env.copyOk item then
          let copied' := setA copied item data_path
          let infos' := setA infos data_path
            ⟨item, some (env.ctimeOf item), some (env.mtimeOf item)⟩
          if first then (some data_path, pathlist ++ [data_path], copied', infos')
          else dirLoop env directory data_folder force first pat rest
            (pathlist ++ [data_path]) copied' infos'
        else
          -- the exception is caught and logged; `data_path` keeps its
          -- computed value and is still appended to `pathlist`
          if first then (some data_path, pathlist ++ [data_path], copied, infos)
          else dirLoop env directory data_folder force first pat rest
            (pathlist ++ [data_path]) copied infos
      else
        let data_path := (lookupA copied item).getD ""
        if first then (some data_path, pathlist ++ [data_path], copied, infos)
        else dirLoop env directory data_folder force first pat rest
          (pathlist ++ [data_path]) copied infos
    else
      dirLoop env directory data_folder force first pat rest pathlist copied infos

/-- `FileSeekerDir.search`. -/
def FileSeekerDir.search (env : DirEnv) (s : DirSeeker) (filepattern : String)
    (return_on_first_hit force : Bool) : SearchResult × DirSeeker :=
  if (lookupA s.searched filepattern).isSome && !force then
    let pathlist := (lookupA s.searched filepattern).getD []
    (if return_on_first_hit && !pathlist.isEmpty then
        .single (pathlist.headD "")
      else .many pathlist, s)
  else
    match dirLoop env s.directory s.data_folder force return_on_first_hit
        (fun c => fnmatch filepattern c) s.all_files [] s.copied s.file_infos with
    | (some p, pathlist, copied, infos) =>
      (.single p,
        { s with searched := setA s.searched filepattern pathlist,
                 copied := copied, file_infos := infos })
    | (none, pathlist, copied, infos) =>
      (.many pathlist,
        { s with searched := setA s.searched filepattern pathlist,
                 copied := copied, file_infos := infos })

/-! ## FileSeekerTar -/

/-- One entry of `tar_file.getmembers()`: name, directory flag, stored
modification time. -/
structure TarMember where
  name : String
  isdir : Bool
  mtime : Nat
  deriving DecidableEq

/-- I/O oracles for `FileSeekerTar.search`: `sanitize` models
`sanitize_file_path` from `scripts.ilapfuncs` (not part of the sources),
`writeOk m` tells whether the `try:` block (makedirs / open / write /
utime) succeeds for the member named `m`. -/
structure TarEnv where
  sanitize : String → String
  writeOk : String → Bool

/-- Mutable state of a `FileSeekerTar` instance; `members` is the member
table the open tar handle yields on each `getmembers()` walk. -/
structure TarSeeker where
  members : List TarMember
  data_folder : String
  searched : List (String × List String)
  copied : List (String × String)
  file_infos : List (String × FileInfo)
  deriving DecidableEq

/-- The `for member in self.tar_file.getmembers():` loop of
`FileSeekerTar.search`. -/
def tarLoop (env : TarEnv) (data_folder : String)
    (force first : Bool) (pat : String → Bool) :
    List TarMember → List String → List (String × String) →
    List (String × FileInfo) →
    Option String × List String × List (String × String) ×
      List (String × FileInfo)
  | [], pathlist, copied, infos => (none, pathlist, copied, infos)
  | member :: rest, pathlist, copied, infos =>
    if pat ("root/" ++ member.name) then
      let clean_name := env.sanitize member.name
      let full_path := osPathJoin data_folder clean_name
      if (lookupA copied member.name).isNone || force then
        if env.writeOk member.name then
          if member.isdir then
            -- directories: `os.makedirs` only; nothing is recorded in
            -- `file_infos` or `copied`
            if first then (some full_path, pathlist ++ [full_path], copied, infos)
            else tarLoop env data_folder force first pat rest
              (pathlist ++ [full_path]) copied infos
          else
            let infos' := setA infos full_path
              ⟨member.name, some 0, some member.mtime⟩
            let copied' := setA copied member.name full_path
            if first then (some full_path, pathlist ++ [full_path], copied', infos')
            else tarLoop env data_folder force first pat rest
              (pathlist ++ [full_path]) copied' infos'
        else
          -- exception caught and logged; `full_path` is still appended
          if first then (some full_path, pathlist ++ [full_path], copied, infos)
          else tarLoop env data_folder force first pat rest
            (pathlist ++ [full_path]) copied infos
      else
        let full_path := (lookupA copied member.name).getD ""
        if first then (some full_path, pathlist ++ [full_path], copied, infos)
        else tarLoop env data_folder force first pat rest
          (pathlist ++ [full_path]) copied infos
    else
      tarLoop env data_folder force first pat rest pathlist copied infos

/-- `FileSeekerTar.search`. -/
def FileSeekerTar.search (env : TarEnv) (s : TarSeeker) (filepattern : String)
    (return_on_first_hit force : Bool) : SearchResult × TarSeeker :=
  if (lookupA s.searched filepattern).isSome && !force then
    let pathlist := (lookupA s.searched filepattern).getD []
    (if return_on_first_hit && !pathlist.isEmpty then
        .single (pathlist.headD "")
      else .many pathlist, s)
  else
    match tarLoop env s.data_folder force return_on_first_hit
        (fun c => fnmatch filepattern c) s.members [] s.copied s.file_infos with
    | (some p, pathlist, copied, infos) =>
      (.single p,
        { s with searched := setA s.searched filepattern pathlist,
                 copied := copied, file_infos := infos })
    | (none, pathlist, copied, infos) =>
      (.many pathlist,
        { s with searched := setA s.searched filepattern pathlist,
                 copied := copied, file_infos := infos })

/-! ## FileSeekerZip: extended-timestamp decoder -/

/-- Byte access into a buffer, `some` exactly when the index is in
bounds. -/
def byteAt : List Nat → Nat → Option Nat
  | [], _ => none
  | b :: _, 0 => some b
  | _ :: rest, i + 1 => byteAt rest i

/-- `struct.unpack_from('<H', d, i)`: little-endian u16, or `none` when
the buffer is too short (Python raises `struct.error`). -/
def readU16 (d : List Nat) (i : Nat) : Option Nat :=
  match byteAt d i, byteAt d (i + 1) with
  | some a, some b => some (a + 256 * b)
  | _, _ => none

/-- `struct.unpack_from('B', d, i)`. -/
def readU8 (d : List Nat) (i : Nat) : Option Nat :=
  byteAt d i

/-- `struct.unpack_from('<I', d, i)`: little-endian u32, or `none` when
the buffer is too short. -/
def readU32 (d : List Nat) (i : Nat) : Option Nat :=
  match byteAt d i, byteAt d (i + 1), byteAt d (i + 2), byteAt d (i + 3) with
  | some a, some b, some c, some e =>
    some (a + 256 * b + 65536 * c + 16777216 * e)
  | _, _, _, _ => none

/-- The `while offset < length:` loop of
`FileSeekerZip.decode_extended_timestamp`.  `Except.error ()` models an
uncaught `struct.error` from `unpack_from` on a truncated buffer.  The
loop is driven by fuel, one unit per iteration; since every iteration
advances `offset` by at least 4, `d.length + 1` fuel is always enough
(the 0-fuel branch is unreachable from `decode_extended_timestamp`, see
`decodeLoop_fuel_irrelevant`). -/
def decodeLoop (d : List Nat) : Nat → Nat → Except Unit (Option Nat × Option Nat)
  | 0, _ => .error ()
  | fuel + 1, offset =>
    if offset < d.length then
      match readU16 d offset, readU16 d (offset + 2) with
      | some header_id, some data_size =>
        if header_id = 0x5455 then
          match readU8 d (offset + 4) with
          | some flags =>
            if flags &&& 1 ≠ 0 then
              match readU32 d (offset + 5) with
              | some modification_time =>
                if flags &&& 4 ≠ 0 then
                  match readU32 d (offset + 9) with
                  | some creation_time =>
                    .ok (some creation_time, some modification_time)
                  | none => .error ()
                else .ok (none, some modification_time)
              | none => .error ()
            else
              if flags &&& 4 ≠ 0 then
                match readU32 d (offset + 5) with
                | some creation_time => .ok (some creation_time, none)
                | none => .error ()
              else .ok (none, none)
          | none => .error ()
        else decodeLoop d fuel (offset + 4 + data_size)
      | _, _ => .error ()
    else .ok (none, none)

/-- `FileSeekerZip.decode_extended_timestamp` on the raw extra-field
bytes: scans `(headerId, dataSize, data)` records for header `0x5455`
and returns `(creation_time, modification_time)`. -/
def decode_extended_timestamp (extra_data : List Nat) :
    Except Unit (Option Nat × Option Nat) :=
  decodeLoop extra_data (extra_data.length + 1) 0

/-! ## FileSeekerZip -/

/-- I/O oracles for `FileSeekerZip.search`: `extractOk m` tells whether
`zip_file.extract(m, ...)` succeeds, `extractedPathOf m` is the local
path it returns, `extraOf m` is `getinfo(m).extra`, and `dosTimeOf m` is
the epoch value `timex.mktime(getinfo(m).date_time + (0, 0, -1))`
computed from the coarse DOS date/time field. -/
structure ZipEnv where
  extractOk : String → Bool
  extractedPathOf : String → String
  extraOf : String → List Nat
  dosTimeOf : String → Nat

/-- Mutable state of a `FileSeekerZip` instance; `utimes` records, per
local path, the modification time last applied by `os.utime`. -/
structure ZipSeeker where
  name_list : List String
  data_folder : String
  searched : List (String × List String)
  copied : List (String × String)
  file_infos : List (String × FileInfo)
  utimes : List (String × Nat)
  deriving DecidableEq

/-- The `for member in self.name_list:` loop of `FileSeekerZip.search`.
The `Option String` argument threads the Python local `extracted_path`
across iterations of one call (initially unbound = `none`); when
`zip_file.extract` raises while `extracted_path` is still unbound, the
`pathlist.append(extracted_path)` after the `except` block raises
`UnboundLocalError`, which is not caught: modelled by `.error ()`. -/
def zipLoop (env : ZipEnv) (force first : Bool) (pat : String → Bool) :
    List String → Option String → List String → List (String × String) →
    List (String × FileInfo) → List (String × Nat) →
    Except Unit (Option String × List String × List (String × String) ×
      List (String × FileInfo) × List (String × Nat))
  | [], _, pathlist, copied, infos, utimes =>
    .ok (none, pathlist, copied, infos, utimes)
  | member :: rest, epv, pathlist, copied, infos, utimes =>
    if pyStartsWith member "__MACOSX" then
      zipLoop env force first pat rest epv pathlist copied infos utimes
    else if pat ("root/" ++ member) then
      if (lookupA copied member).isNone || force then
        if env.extractOk member then
          let ep := env.extractedPathOf member
          match decode_extended_timestamp (env.extraOf member) with
          | .ok (creation_date, modification_date) =>
            let infos' := setA infos ep ⟨member, creation_date, modification_date⟩
            let utimes' := setA utimes ep (env.dosTimeOf member)
            let copied' := setA copied member ep
            if first then .ok (some ep, pathlist ++ [ep], copied', infos', utimes')
            else zipLoop env force first pat rest (some ep)
              (pathlist ++ [ep]) copied' infos' utimes'
          | .error _ =>
            -- struct.error from the decoder is caught by the `except`;
            -- `extracted_path` is bound, but nothing is recorded
            if first then .ok (some ep, pathlist ++ [ep], copied, infos, utimes)
            else zipLoop env force first pat rest (some ep)
              (pathlist ++ [ep]) copied infos utimes
        else
          -- `zip_file.extract` raised and was caught; `extracted_path`
          -- keeps its previous binding, if any
          match epv with
          | none => .error ()
          | some stale =>
            if first then .ok (some stale, pathlist ++ [stale], copied, infos, utimes)
            else zipLoop env force first pat rest (some stale)
              (pathlist ++ [stale]) copied infos utimes
      else
        let ep := (lookupA copied member).getD ""
        if first then .ok (some ep, pathlist ++ [ep], copied, infos, utimes)
        else zipLoop env force first pat rest (some ep)
          (pathlist ++ [ep]) copied infos utimes
    else
      zipLoop env force first pat rest epv pathlist copied infos utimes

/-- `FileSeekerZip.search`. -/
def FileSeekerZip.search (env : ZipEnv) (s : ZipSeeker) (filepattern : String)
    (return_on_first_hit force : Bool) :
    Except Unit (SearchResult × ZipSeeker) :=
  if (lookupA s.searched filepattern).isSome && !force then
    let pathlist := (lookupA s.searched filepattern).getD []
    .ok (if return_on_first_hit && !pathlist.isEmpty then
        .single (pathlist.headD "")
      else .many pathlist, s)
  else
    match zipLoop env force return_on_first_hit
        (fun c => fnmatch filepattern c) s.name_list none [] s.copied
        s.file_infos s.utimes with
    | .error e => .error e
    | .ok (some p, pathlist, copied, infos, utimes) =>
      .ok (.single p,
        { s with searched := setA s.searched filepattern pathlist,
                 copied := copied, file_infos := infos, utimes := utimes })
    | .ok (none, pathlist, copied, infos, utimes) =>
      .ok (.many pathlist,
        { s with searched := setA s.searched filepattern pathlist,
                 copied := copied, file_infos := infos, utimes := utimes })

/-! ## FileSeekerWeb -/

/-- One entry of the `/files/search` JSON response, with the defaults
`file_info.get(...)` supplies for missing keys: empty path and zero
timestamps. -/
structure WebFile where
  path : String
  mtime : Nat
  ctime : Nat
  deriving DecidableEq

/-- I/O oracles for `FileSeekerWeb.search`: `apiResults p` is the parsed
file list `_search_api` returns for pattern `p` (already `[]` on any
request/JSON error), `downloadOk r` tells whether `_download_file`
succeeds for remote path `r`, and `hdrMtime`/`hdrCtime` are the
`X-File-Mtime`/`X-File-Ctime` response-header values (0 when absent, as
`float(headers.get(..., 0))` yields). `sanitize` models
`sanitize_file_path`. -/
structure WebEnv where
  apiResults : String → List WebFile
  downloadOk : String → Bool
  hdrMtime : String → Nat
  hdrCtime : String → Nat
  sanitize : String → String

/-- Mutable state of a `FileSeekerWeb` instance. -/
structure WebSeeker where
  data_folder : String
  searched : List (String × List String)
  copied : List (String × String)
  file_infos : List (String × FileInfo)
  deriving DecidableEq

/-- The `for file_info in matching_files:` loop of
`FileSeekerWeb.search`.  Python `a or b` on the numeric timestamps is
`if a ≠ 0 then a else b`. -/
def webLoop (env : WebEnv) (data_folder : String) (force first : Bool) :
    List WebFile → List String → List (String × String) →
    List (String × FileInfo) →
    Option String × List String × List (String × String) ×
      List (String × FileInfo)
  | [], pathlist, copied, infos => (none, pathlist, copied, infos)
  | wfile :: rest, pathlist, copied, infos =>
    let remote_path := wfile.path
    if remote_path = "" then
      webLoop env data_folder force first rest pathlist copied infos
    else
      let clean_name := env.sanitize remote_path
      let local_path := osPathJoin data_folder clean_name
      if (lookupA copied remote_path).isNone || force then
        if env.downloadOk remote_path then
          let dl_ctime := env.hdrCtime remote_path
          let dl_mtime := env.hdrMtime remote_path
          let ctime := if wfile.ctime ≠ 0 then wfile.ctime else dl_ctime
          let mtime := if wfile.mtime ≠ 0 then wfile.mtime else dl_mtime
          let infos' := setA infos local_path ⟨remote_path, some ctime, some mtime⟩
          let copied' := setA copied remote_path local_path
          if first then (some local_path, pathlist ++ [local_path], copied', infos')
          else webLoop env data_folder force first rest
            (pathlist ++ [local_path]) copied' infos'
        else
          -- download error: logged, `continue` skips the append
          webLoop env data_folder force first rest pathlist copied infos
      else
        let local_path := (lookupA copied remote_path).getD ""
        if first then (some local_path, pathlist ++ [local_path], copied, infos)
        else webLoop env data_folder force first rest
          (pathlist ++ [local_path]) copied infos

/-- `FileSeekerWeb.search`. -/
def FileSeekerWeb.search (env : WebEnv) (s : WebSeeker) (filepattern : String)
    (return_on_first_hit force : Bool) : SearchResult × WebSeeker :=
  if (lookupA s.searched filepattern).isSome && !force then
    let pathlist := (lookupA s.searched filepattern).getD []
    (if return_on_first_hit && !pathlist.isEmpty then
        .single (pathlist.headD "")
      else .many pathlist, s)
  else
    match webLoop env s.data_folder force return_on_first_hit
        (env.apiResults filepattern) [] s.copied s.file_infos with
    | (some p, pathlist, copied, infos) =>
      (.single p,
        { s with searched := setA s.searched filepattern pathlist,
                 copied := copied, file_infos := infos })
    | (none, pathlist, copied, infos) =>
      (.many pathlist,
        { s with searched := setA s.searched filepattern pathlist,
                 copied := copied, file_infos := infos })

/-! ## FileSeekerDir.build_files_list -/

/-- A node of the evidence filesystem tree: a regular file, or a
directory with a readability flag (`readable = false` models
`os.scandir` raising for an unreadable subtree). -/
inductive FSNode where
  | file (name : String)
  | dir (name : String) (readable : Bool) (children : List FSNode)

mutual
/-- `FileSeekerDir.build_files_list(directory)` over the modelled tree:
`os.scandir` yields `entries` when the directory is readable and raises
(logged, nothing appended at this level) otherwise. -/
def build_files_list (directory : String) (readable : Bool)
    (entries : List FSNode) : List String :=
  if readable then buildItems directory entries else []
/-- The `for item in files_list:` loop of `build_files_list`: every
entry's path is appended, and directories are recursed into. -/
def buildItems (directory : String) : List FSNode → List String
  | [] => []
  | .file n :: rest => (directory ++ "/" ++ n) :: buildItems directory rest
  | .dir n r cs :: rest =>
    (directory ++ "/" ++ n) ::
      (build_files_list (directory ++ "/" ++ n) r cs ++ buildItems directory rest)
end

mutual
/-- The regular files reachable from a directory through readable
directories only (what the specification says the listing holds). -/
def reachableFiles (directory : String) (readable : Bool)
    (entries : List FSNode) : List String :=
  if readable then filesItems directory entries else []
def filesItems (directory : String) : List FSNode → List String
  | [] => []
  | .file n :: rest => (directory ++ "/" ++ n) :: filesItems directory rest
  | .dir n r cs :: rest =>
    reachableFiles (directory ++ "/" ++ n) r cs ++ filesItems directory rest
end

mutual
/-- The directories reachable from a directory through readable
directories (an unreadable directory is itself listed by its readable
parent, but its contents are not). -/
def reachableDirs (directory : String) (readable : Bool)
    (entries : List FSNode) : List String :=
  if readable then dirsItems directory entries else []
def dirsItems (directory : String) : List FSNode → List String
  | [] => []
  | .file _ :: rest => dirsItems directory rest
  | .dir n r cs :: rest =>
    (directory ++ "/" ++ n) ::
      (reachableDirs (directory ++ "/" ++ n) r cs ++ dirsItems directory rest)
end

/-! ## Well-formed extra fields -/

/-- A buffer that is a whole number of complete
`(headerId, dataSize, data)` records, none of which has header `0x5455`:
the decoder scans it to the end and reports absent timestamps. -/
inductive WFNon5455 : List Nat → Prop where
  | nil : WFNon5455 []
  | cons (b0 b1 b2 b3 : Nat) (rest : List Nat)
      (hid : b0 + 256 * b1 ≠ 0x5455)
      (hsz : b2 + 256 * b3 ≤ rest.length)
      (htail : WFNon5455 (rest.drop (b2 + 256 * b3))) :
      WFNon5455 (b0 :: b1 :: b2 :: b3 :: rest)

/-- A buffer on which every read the decoder performs stays in bounds:
complete record headers, with the flag byte and the flagged timestamp
fields of a `0x5455` record present. -/
inductive WFExtra : List Nat → Prop where
  | nil : WFExtra []
  | ts (b0 b1 b2 b3 flags : Nat) (rest2 : List Nat)
      (hid : b0 + 256 * b1 = 0x5455)
      (hneed : (if flags &&& 1 ≠ 0 then 4 else 0) +
        (if flags &&& 4 ≠ 0 then 4 else 0) ≤ rest2.length) :
      WFExtra (b0 :: b1 :: b2 :: b3 :: flags :: rest2)
  | other (b0 b1 b2 b3 : Nat) (rest : List Nat)
      (hid : b0 + 256 * b1 ≠ 0x5455)
      (hsz : b2 + 256 * b3 ≤ rest.length)
      (htail : WFExtra (rest.drop (b2 + 256 * b3))) :
      WFExtra (b0 :: b1 :: b2 :: b3 :: rest)

/-- The extended-timestamp record used in the round-trip statements:
header `0x5455`, declared size 9, flags `0b101`, modification time 2000
then creation time 1000, as little-endian u32. -/
def tsRecord : List Nat :=
  [0x55, 0x54, 9, 0, 5, 0xd0, 0x07, 0, 0, 0xe8, 0x03, 0, 0]

/-! ## Association-list lemmas -/

theorem lookupA_setA {α : Type} (m : List (String × α)) (k key : String) (v : α) :
    lookupA (setA m k v) key = if key = k then some v else lookupA m key := by
  induction m with
  | nil => by_cases h : key = k <;> simp [setA, lookupA, h]
  | cons hd tl ih =>
    obtain ⟨k', v'⟩ := hd
    by_cases h : k' = k
    · subst h
      by_cases h2 : key = k' <;> simp [setA, lookupA, h2]
    · by_cases h2 : key = k'
      · subst h2
        simp [setA, lookupA, Ne.symm h, h]
      · simp [setA, lookupA, h, h2, ih]

theorem lookupA_setA_self {α : Type} (m : List (String × α)) (k : String) (v : α) :
    lookupA (setA m k v) k = some v := by
  simp [lookupA_setA]

/-! ## Pattern-cache behaviour of the four search loops -/

theorem dirLoop_fst_none (env : DirEnv) (dir df : String) (force : Bool)
    (pat : String → Bool) :
    ∀ (items pl : List String) (cp : List (String × String))
      (fi : List (String × FileInfo)),
      (dirLoop env dir df force false pat items pl cp fi).1 = none := by
  intro items
  induction items with
  | nil => intro pl cp fi; simp [dirLoop]
  | cons item rest ih =>
    intro pl cp fi
    simp only [dirLoop]
    split
    · split
      · split
        · simpa using ih ..
        · simpa using ih ..
      · simpa using ih ..
    · exact ih ..

theorem dir_search_caches (env : DirEnv) (s : DirSeeker) (p : String)
    (r : SearchResult) (s1 : DirSeeker)
    (h : FileSeekerDir.search env s p false false = (r, s1)) :
    ∃ l, r = .many l ∧ lookupA s1.searched p = some l := by
  rcases c : lookupA s.searched p with _ | l
  · have hn := dirLoop_fst_none env s.directory s.data_folder false
      (fun cand => fnmatch p cand) s.all_files [] s.copied s.file_infos
    rcases ht : dirLoop env s.directory s.data_folder false false
        (fun cand => fnmatch p cand) s.all_files [] s.copied s.file_infos with
      ⟨fst, pl, cp, fi⟩
    rw [ht] at hn
    simp only at hn
    subst hn
    simp only [FileSeekerDir.search, c, ht] at h
    simp at h
    obtain ⟨h1, h2⟩ := h
    refine ⟨pl, h1.symm, ?_⟩
    rw [← h2]
    simpa using lookupA_setA_self s.searched p pl
  · simp only [FileSeekerDir.search, c] at h
    simp at h
    obtain ⟨h1, h2⟩ := h
    exact ⟨l, h1.symm, by rw [← h2]; exact c⟩

theorem dir_search_idempotent (env : DirEnv) (s : DirSeeker) (p : String)
    (r : SearchResult) (s1 : DirSeeker)
    (h : FileSeekerDir.search env s p false false = (r, s1)) :
    FileSeekerDir.search env s1 p false false = (r, s1) := by
  obtain ⟨l, hr, hl⟩ := dir_search_caches env s p r s1 h
  subst hr
  simp only [FileSeekerDir.search, hl]
  simp

theorem dirLoop_first_hit (env : DirEnv) (dir df : String) (force : Bool)
    (pat : String → Bool) :
    ∀ (items acc : List String) (cp : List (String × String))
      (fi : List (String × FileInfo)) (x : String) (pl : List String)
      (cp' : List (String × String)) (fi' : List (String × FileInfo)),
      dirLoop env dir df force true pat items acc cp fi = (some x, pl, cp', fi') →
      pl = acc ++ [x] := by
  intro items
  induction items with
  | nil =>
    intro acc cp fi x pl cp' fi' h
    simp [dirLoop] at h
  | cons item rest ih =>
    intro acc cp fi x pl cp' fi' h
    simp only [dirLoop] at h
    split at h
    · split at h
      · split at h
        · simp at h
          obtain ⟨hx, hpl, -⟩ := h
          subst hx; subst hpl; rfl
        · simp at h
          obtain ⟨hx, hpl, -⟩ := h
          subst hx; subst hpl; rfl
      · simp at h
        obtain ⟨hx, hpl, -⟩ := h
        subst hx; subst hpl; rfl
    · exact ih _ _ _ _ _ _ _ h

theorem dir_search_first_hit_cache (env : DirEnv) (s : DirSeeker) (p x : String)
    (s1 : DirSeeker) (hc : lookupA s.searched p = none)
    (h : FileSeekerDir.search env s p true false = (.single x, s1)) :
    lookupA s1.searched p = some [x] ∧
      FileSeekerDir.search env s1 p false false = (.many [x], s1) := by
  rcases ht : dirLoop env s.directory s.data_folder false true
      (fun cand => fnmatch p cand) s.all_files [] s.copied s.file_infos with
    ⟨fst, pl, cp, fi⟩
  simp only [FileSeekerDir.search, hc, ht] at h
  simp only [Option.isSome_none, Bool.false_and, Bool.false_eq_true, if_false] at h
  rcases fst with _ | y
  · simp at h
  · have hpl : pl = [] ++ [y] := dirLoop_first_hit env s.directory s.data_folder
      false (fun cand => fnmatch p cand) s.all_files [] s.copied s.file_infos y pl cp fi ht
    simp only [List.nil_append] at hpl
    subst hpl
    simp at h
    obtain ⟨hyx, hs1⟩ := h
    subst hyx
    have hl : lookupA s1.searched p = some [y] := by
      rw [← hs1]
      simpa using lookupA_setA_self s.searched p [y]
    refine ⟨hl, ?_⟩
    simp only [FileSeekerDir.search, hl]
    simp

theorem tarLoop_fst_none (env : TarEnv) (df : String) (force : Bool)
    (pat : String → Bool) :
    ∀ (items : List TarMember) (pl : List String)
      (cp : List (String × String)) (fi : List (String × FileInfo)),
      (tarLoop env df force false pat items pl cp fi).1 = none := by
  intro items
  induction items with
  | nil => intro pl cp fi; simp [tarLoop]
  | cons m rest ih =>
    intro pl cp fi
    simp only [tarLoop]
    split
    · split
      · split
        · split
          · simpa using ih ..
          · simpa using ih ..
        · simpa using ih ..
      · simpa using ih ..
    · exact ih ..

theorem tar_search_caches (env : TarEnv) (s : TarSeeker) (p : String)
    (r : SearchResult) (s1 : TarSeeker)
    (h : FileSeekerTar.search env s p false false = (r, s1)) :
    ∃ l, r = .many l ∧ lookupA s1.searched p = some l := by
  rcases c : lookupA s.searched p with _ | l
  · have hn := tarLoop_fst_none env s.data_folder false
      (fun cand => fnmatch p cand) s.members [] s.copied s.file_infos
    rcases ht : tarLoop env s.data_folder false false
        (fun cand => fnmatch p cand) s.members [] s.copied s.file_infos with
      ⟨fst, pl, cp, fi⟩
    rw [ht] at hn
    simp only at hn
    subst hn
    simp only [FileSeekerTar.search, c, ht] at h
    simp at h
    obtain ⟨h1, h2⟩ := h
    refine ⟨pl, h1.symm, ?_⟩
    rw [← h2]
    simpa using lookupA_setA_self s.searched p pl
  · simp only [FileSeekerTar.search, c] at h
    simp at h
    obtain ⟨h1, h2⟩ := h
    exact ⟨l, h1.symm, by rw [← h2]; exact c⟩

theorem tar_search_idempotent (env : TarEnv) (s : TarSeeker) (p : String)
    (r : SearchResult) (s1 : TarSeeker)
    (h : FileSeekerTar.search env s p false false = (r, s1)) :
    FileSeekerTar.search env s1 p false false = (r, s1) := by
  obtain ⟨l, hr, hl⟩ := tar_search_caches env s p r s1 h
  subst hr
  simp only [FileSeekerTar.search, hl]
  simp

theorem tarLoop_first_hit (env : TarEnv) (df : String) (force : Bool)
    (pat : String → Bool) :
    ∀ (items : List TarMember) (acc : List String)
      (cp : List (String × String)) (fi : List (String × FileInfo))
      (x : String) (pl : List String) (cp' : List (String × String))
      (fi' : List (String × FileInfo)),
      tarLoop env df force true pat items acc cp fi = (some x, pl, cp', fi') →
      pl = acc ++ [x] := by
  intro items
  induction items with
  | nil =>
    intro acc cp fi x pl cp' fi' h
    simp [tarLoop] at h
  | cons m rest ih =>
    intro acc cp fi x pl cp' fi' h
    simp only [tarLoop] at h
    split at h
    · split at h
      · split at h
        · split at h
          · simp at h
            obtain ⟨hx, hpl, -⟩ := h
            subst hx; subst hpl; rfl
          · simp at h
            obtain ⟨hx, hpl, -⟩ := h
            subst hx; subst hpl; rfl
        · simp at h
          obtain ⟨hx, hpl, -⟩ := h
          subst hx; subst hpl; rfl
      · simp at h
        obtain ⟨hx, hpl, -⟩ := h
        subst hx; subst hpl; rfl
    · exact ih _ _ _ _ _ _ _ h

theorem tar_search_first_hit_cache (env : TarEnv) (s : TarSeeker) (p x : String)
    (s1 : TarSeeker) (hc : lookupA s.searched p = none)
    (h : FileSeekerTar.search env s p true false = (.single x, s1)) :
    lookupA s1.searched p = some [x] ∧
      FileSeekerTar.search env s1 p false false = (.many [x], s1) := by
  rcases ht : tarLoop env s.data_folder false true
      (fun cand => fnmatch p cand) s.members [] s.copied s.file_infos with
    ⟨fst, pl, cp, fi⟩
  simp only [FileSeekerTar.search, hc, ht] at h
  simp only [Option.isSome_none, Bool.false_and, Bool.false_eq_true, if_false] at h
  rcases fst with _ | y
  · simp at h
  · have hpl : pl = [] ++ [y] := tarLoop_first_hit env s.data_folder
      false (fun cand => fnmatch p cand) s.members [] s.copied s.file_infos y pl cp fi ht
    simp only [List.nil_append] at hpl
    subst hpl
    simp at h
    obtain ⟨hyx, hs1⟩ := h
    subst hyx
    have hl : lookupA s1.searched p = some [y] := by
      rw [← hs1]
      simpa using lookupA_setA_self s.searched p [y]
    refine ⟨hl, ?_⟩
    simp only [FileSeekerTar.search, hl]
    simp

theorem webLoop_fst_none (env : WebEnv) (df : String) (force : Bool) :
    ∀ (items : List WebFile) (pl : List String)
      (cp : List (String × String)) (fi : List (String × FileInfo)),
      (webLoop env df force false items pl cp fi).1 = none := by
  intro items
  induction items with
  | nil => intro pl cp fi; simp [webLoop]
  | cons w rest ih =>
    intro pl cp fi
    simp only [webLoop]
    split
    · exact ih ..
    · split
      · split
        · simpa using ih ..
        · exact ih ..
      · simpa using ih ..

theorem web_search_caches (env : WebEnv) (s : WebSeeker) (p : String)
    (r : SearchResult) (s1 : WebSeeker)
    (h : FileSeekerWeb.search env s p false false = (r, s1)) :
    ∃ l, r = .many l ∧ lookupA s1.searched p = some l := by
  rcases c : lookupA s.searched p with _ | l
  · have hn := webLoop_fst_none env s.data_folder false
      (env.apiResults p) [] s.copied s.file_infos
    rcases ht : webLoop env s.data_folder false false
        (env.apiResults p) [] s.copied s.file_infos with
      ⟨fst, pl, cp, fi⟩
    rw [ht] at hn
    simp only at hn
    subst hn
    simp only [FileSeekerWeb.search, c, ht] at h
    simp at h
    obtain ⟨h1, h2⟩ := h
    refine ⟨pl, h1.symm, ?_⟩
    rw [← h2]
    simpa using lookupA_setA_self s.searched p pl
  · simp only [FileSeekerWeb.search, c] at h
    simp at h
    obtain ⟨h1, h2⟩ := h
    exact ⟨l, h1.symm, by rw [← h2]; exact c⟩

theorem web_search_idempotent (env : WebEnv) (s : WebSeeker) (p : String)
    (r : SearchResult) (s1 : WebSeeker)
    (h : FileSeekerWeb.search env s p false false = (r, s1)) :
    FileSeekerWeb.search env s1 p false false = (r, s1) := by
  obtain ⟨l, hr, hl⟩ := web_search_caches env s p r s1 h
  subst hr
  simp only [FileSeekerWeb.search, hl]
  simp

theorem webLoop_first_hit (env : WebEnv) (df : String) (force : Bool) :
    ∀ (items : List WebFile) (acc : List String)
      (cp : List (String × String)) (fi : List (String × FileInfo))
      (x : String) (pl : List String) (cp' : List (String × String))
      (fi' : List (String × FileInfo)),
      webLoop env df force true items acc cp fi = (some x, pl, cp', fi') →
      pl = acc ++ [x] := by
  intro items
  induction items with
  | nil =>
    intro acc cp fi x pl cp' fi' h
    simp [webLoop] at h
  | cons w rest ih =>
    intro acc cp fi x pl cp' fi' h
    simp only [webLoop] at h
    split at h
    · exact ih _ _ _ _ _ _ _ h
    · split at h
      · split at h
        · simp at h
          obtain ⟨hx, hpl, -⟩ := h
          subst hx; subst hpl; rfl
        · exact ih _ _ _ _ _ _ _ h
      · simp at h
        obtain ⟨hx, hpl, -⟩ := h
        subst hx; subst hpl; rfl

theorem web_search_first_hit_cache (env : WebEnv) (s : WebSeeker) (p x : String)
    (s1 : WebSeeker) (hc : lookupA s.searched p = none)
    (h : FileSeekerWeb.search env s p true false = (.single x, s1)) :
    lookupA s1.searched p = some [x] ∧
      FileSeekerWeb.search env s1 p false false = (.many [x], s1) := by
  rcases ht : webLoop env s.data_folder false true
      (env.apiResults p) [] s.copied s.file_infos with ⟨fst, pl, cp, fi⟩
  simp only [FileSeekerWeb.search, hc, ht] at h
  simp only [Option.isSome_none, Bool.false_and, Bool.false_eq_true, if_false] at h
  rcases fst with _ | y
  · simp at h
  · have hpl : pl = [] ++ [y] := webLoop_first_hit env s.data_folder
      false (env.apiResults p) [] s.copied s.file_infos y pl cp fi ht
    simp only [List.nil_append] at hpl
    subst hpl
    simp at h
    obtain ⟨hyx, hs1⟩ := h
    subst hyx
    have hl : lookupA s1.searched p = some [y] := by
      rw [← hs1]
      simpa using lookupA_setA_self s.searched p [y]
    refine ⟨hl, ?_⟩
    simp only [FileSeekerWeb.search, hl]
    simp

theorem zipLoop_fst_none (env : ZipEnv) (force : Bool) (pat : String → Bool) :
    ∀ (items : List String) (epv : Option String) (pl : List String)
      (cp : List (String × String)) (fi : List (String × FileInfo))
      (ut : List (String × Nat)) (fst : Option String) (pl' : List String)
      (cp' : List (String × String)) (fi' : List (String × FileInfo))
      (ut' : List (String × Nat)),
      zipLoop env force false pat items epv pl cp fi ut =
        .ok (fst, pl', cp', fi', ut') → fst = none := by
  intro items
  induction items with
  | nil =>
    intro epv pl cp fi ut fst pl' cp' fi' ut' h
    simp [zipLoop] at h
    exact h.1.symm
  | cons m rest ih =>
    intro epv pl cp fi ut fst pl' cp' fi' ut' h
    simp only [zipLoop] at h
    split at h
    · exact ih _ _ _ _ _ _ _ _ _ _ h
    · split at h
      · split at h
        · split at h
          · split at h
            · simp only [Bool.false_eq_true, if_false] at h
              exact ih _ _ _ _ _ _ _ _ _ _ h
            · simp only [Bool.false_eq_true, if_false] at h
              exact ih _ _ _ _ _ _ _ _ _ _ h
          · split at h
            · simp at h
            · simp only [Bool.false_eq_true, if_false] at h
              exact ih _ _ _ _ _ _ _ _ _ _ h
        · simp only [Bool.false_eq_true, if_false] at h
          exact ih _ _ _ _ _ _ _ _ _ _ h
      · exact ih _ _ _ _ _ _ _ _ _ _ h

theorem zip_search_caches (env : ZipEnv) (s : ZipSeeker) (p : String)
    (r : SearchResult) (s1 : ZipSeeker)
    (h : FileSeekerZip.search env s p false false = .ok (r, s1)) :
    ∃ l, r = .many l ∧ lookupA s1.searched p = some l := by
  rcases c : lookupA s.searched p with _ | l
  · rcases ht : zipLoop env false false (fun cand => fnmatch p cand)
        s.name_list none [] s.copied s.file_infos s.utimes with e | ⟨fst, pl, cp, fi, ut⟩
    · simp only [FileSeekerZip.search, c, ht] at h
      simp at h
    · have hn := zipLoop_fst_none env false (fun cand => fnmatch p cand)
        s.name_list none [] s.copied s.file_infos s.utimes fst pl cp fi ut ht
      subst hn
      simp only [FileSeekerZip.search, c, ht] at h
      simp at h
      obtain ⟨h1, h2⟩ := h
      refine ⟨pl, h1.symm, ?_⟩
      rw [← h2]
      simpa using lookupA_setA_self s.searched p pl
  · simp only [FileSeekerZip.search, c] at h
    simp at h
    obtain ⟨h1, h2⟩ := h
    exact ⟨l, h1.symm, by rw [← h2]; exact c⟩

theorem zip_search_idempotent (env : ZipEnv) (s : ZipSeeker) (p : String)
    (r : SearchResult) (s1 : ZipSeeker)
    (h : FileSeekerZip.search env s p false false = .ok (r, s1)) :
    FileSeekerZip.search env s1 p false false = .ok (r, s1) := by
  obtain ⟨l, hr, hl⟩ := zip_search_caches env s p r s1 h
  subst hr
  simp only [FileSeekerZip.search, hl]
  simp

theorem zipLoop_first_hit (env : ZipEnv) (force : Bool) (pat : String → Bool) :
    ∀ (items : List String) (epv : Option String) (acc : List String)
      (cp : List (String × String)) (fi : List (String × FileInfo))
      (ut : List (String × Nat)) (x : String) (pl : List String)
      (cp' : List (String × String)) (fi' : List (String × FileInfo))
      (ut' : List (String × Nat)),
      zipLoop env force true pat items epv acc cp fi ut =
        .ok (some x, pl, cp', fi', ut') → pl = acc ++ [x] := by
  intro items
  induction items with
  | nil =>
    intro epv acc cp fi ut x pl cp' fi' ut' h
    simp [zipLoop] at h
  | cons m rest ih =>
    intro epv acc cp fi ut x pl cp' fi' ut' h
    simp only [zipLoop] at h
    split at h
    · exact ih _ _ _ _ _ _ _ _ _ _ h
    · split at h
      · split at h
        · split at h
          · split at h
            · simp at h
              obtain ⟨hx, hpl, -⟩ := h
              subst hx; subst hpl; rfl
            · simp at h
              obtain ⟨hx, hpl, -⟩ := h
              subst hx; subst hpl; rfl
          · split at h
            · simp at h
            · simp at h
              obtain ⟨hx, hpl, -⟩ := h
              subst hx; subst hpl; rfl
        · simp at h
          obtain ⟨hx, hpl, -⟩ := h
          subst hx; subst hpl; rfl
      · exact ih _ _ _ _ _ _ _ _ _ _ h

theorem zip_search_first_hit_cache (env : ZipEnv) (s : ZipSeeker) (p x : String)
    (s1 : ZipSeeker) (hc : lookupA s.searched p = none)
    (h : FileSeekerZip.search env s p true false = .ok (.single x, s1)) :
    lookupA s1.searched p = some [x] ∧
      FileSeekerZip.search env s1 p false false = .ok (.many [x], s1) := by
  rcases ht : zipLoop env false true (fun cand => fnmatch p cand)
      s.name_list none [] s.copied s.file_infos s.utimes with e | ⟨fst, pl, cp, fi, ut⟩
  · simp only [FileSeekerZip.search, hc, ht] at h
    simp at h
  · simp only [FileSeekerZip.search, hc, ht] at h
    simp only [Option.isSome_none, Bool.false_and, Bool.false_eq_true, if_false] at h
    rcases fst with _ | y
    · simp at h
    · have hpl : pl = [] ++ [y] := zipLoop_first_hit env false
        (fun cand => fnmatch p cand) s.name_list none [] s.copied s.file_infos
        s.utimes y pl cp fi ut ht
      simp only [List.nil_append] at hpl
      subst hpl
      simp at h
      obtain ⟨hyx, hs1⟩ := h
      subst hyx
      have hl : lookupA s1.searched p = some [y] := by
        rw [← hs1]
        simpa using lookupA_setA_self s.searched p [y]
      refine ⟨hl, ?_⟩
      simp only [FileSeekerZip.search, hl]
      simp

/-! ## fnmatch lemmas -/

theorem fnmatchList_literal : ∀ (ps s : List Char), '*' ∉ ps → '?' ∉ ps →
    (fnmatchList ps s = true ↔ ps = s) := by
  intro ps
  induction ps with
  | nil =>
    intro s _ _
    cases s <;> simp [fnmatchList]
  | cons p ps ih =>
    intro s hstar hq
    simp only [List.mem_cons, not_or] at hstar hq
    obtain ⟨hp, hstar⟩ := hstar
    obtain ⟨hq1, hq⟩ := hq
    have hp' : p ≠ '*' := fun e => hp e.symm
    have hq' : p ≠ '?' := fun e => hq1 e.symm
    cases s with
    | nil => simp [fnmatchList, hp']
    | cons c cs => simp [fnmatchList, hp', hq', ih cs hstar hq]

theorem starAux_suffix (ps : List Char) (hstar : '*' ∉ ps) (hq : '?' ∉ ps) :
    ∀ t, starAux (fnmatchList ps) (t ++ ps) = true := by
  intro t
  induction t with
  | nil =>
    simp only [List.nil_append]
    cases hc : ps with
    | nil => simp [starAux, fnmatchList]
    | cons p ps' =>
      have hr := (fnmatchList_literal ps ps hstar hq).2 rfl
      rw [hc] at hr
      simp [starAux, hr]
  | cons c t ih =>
    simp [starAux, ih]

theorem fnmatch_star_abdb (d : String) :
    fnmatch "*/a/b.db" ("root/" ++ (d ++ "/a/b.db")) = true := by
  show fnmatchList ("*/a/b.db").data ("root/" ++ (d ++ "/a/b.db")).data = true
  rw [String.data_append, String.data_append]
  have h1 : ("*/a/b.db").data = '*' :: ("/a/b.db").data := rfl
  rw [h1, ← List.append_assoc]
  simp only [fnmatchList, if_pos rfl]
  exact starAux_suffix ("/a/b.db").data (by decide) (by decide)
    ("root/".data ++ d.data)

theorem fnmatch_literal_root_no_match (d : String) (hd : d ≠ "") :
    fnmatch "root/a/b.db" ("root/" ++ (d ++ "/a/b.db")) = false := by
  have hdne : d.data ≠ [] := fun hnil => hd (String.ext hnil)
  rw [← Bool.not_eq_true]
  show ¬fnmatchList ("root/a/b.db").data ("root/" ++ (d ++ "/a/b.db")).data = true
  rw [fnmatchList_literal _ _ (by decide) (by decide)]
  intro e
  have hlen := congrArg List.length e
  rw [String.data_append, String.data_append] at hlen
  simp only [List.length_append] at hlen
  have h11 : ("root/a/b.db").data.length = 11 := by decide
  have h5 : ("root/").data.length = 5 := by decide
  have h7 : ("/a/b.db").data.length = 7 := by decide
  rw [h11, h5, h7] at hlen
  have hpos : 0 < d.data.length := List.length_pos.2 hdne
  omega

theorem fnmatch_literal_bare_no_match (d : String) :
    fnmatch "a/b.db" ("root/" ++ (d ++ "/a/b.db")) = false := by
  rw [← Bool.not_eq_true]
  show ¬fnmatchList ("a/b.db").data ("root/" ++ (d ++ "/a/b.db")).data = true
  rw [fnmatchList_literal _ _ (by decide) (by decide)]
  intro e
  have hlen := congrArg List.length e
  rw [String.data_append, String.data_append] at hlen
  simp only [List.length_append] at hlen
  have h6 : ("a/b.db").data.length = 6 := by decide
  have h5 : ("root/").data.length = 5 := by decide
  have h7 : ("/a/b.db").data.length = 7 := by decide
  rw [h6, h5, h7] at hlen
  omega

/-! ## Decoder lemmas -/

theorem byteAt_drop : ∀ (i : Nat) (d : List Nat) (j : Nat),
    byteAt (d.drop i) j = byteAt d (i + j) := by
  intro i
  induction i with
  | zero => intro d j; simp
  | succ i ih =>
    intro d j
    cases d with
    | nil => simp [byteAt]
    | cons b rest =>
      rw [List.drop_succ_cons, ih rest j]
      have he : i + 1 + j = (i + j) + 1 := by omega
      rw [he]
      rfl

theorem readU16_drop (d : List Nat) (i j : Nat) :
    readU16 (d.drop i) j = readU16 d (i + j) := by
  unfold readU16
  rw [byteAt_drop, byteAt_drop]
  have he : i + (j + 1) = i + j + 1 := by omega
  rw [he]

theorem readU8_drop (d : List Nat) (i j : Nat) :
    readU8 (d.drop i) j = readU8 d (i + j) := by
  unfold readU8
  rw [byteAt_drop]

theorem readU32_drop (d : List Nat) (i j : Nat) :
    readU32 (d.drop i) j = readU32 d (i + j) := by
  unfold readU32
  rw [byteAt_drop, byteAt_drop, byteAt_drop, byteAt_drop]
  have h1 : i + (j + 1) = i + j + 1 := by omega
  have h2 : i + (j + 2) = i + j + 2 := by omega
  have h3 : i + (j + 3) = i + j + 3 := by omega
  rw [h1, h2, h3]

theorem decodeLoop_shift (d : List Nat) :
    ∀ (fuel i j : Nat), decodeLoop (d.drop i) fuel j = decodeLoop d fuel (i + j) := by
  intro fuel
  induction fuel with
  | zero => intro i j; rfl
  | succ fuel ih =>
    intro i j
    simp only [decodeLoop]
    by_cases hlt : i + j < d.length
    · have hlt' : j < (d.drop i).length := by
        rw [List.length_drop]; omega
      rw [if_pos hlt', if_pos hlt, readU16_drop, readU16_drop]
      have he2 : i + (j + 2) = i + j + 2 := by omega
      rw [he2]
      rcases readU16 d (i + j) with _ | hid
      · rfl
      · rcases readU16 d (i + j + 2) with _ | dsz
        · rfl
        · simp only
          by_cases h5455 : hid = 0x5455
          · rw [if_pos h5455, if_pos h5455, readU8_drop]
            have he4 : i + (j + 4) = i + j + 4 := by omega
            rw [he4]
            rcases readU8 d (i + j + 4) with _ | flags
            · rfl
            · simp only
              rw [readU32_drop, readU32_drop]
              have he5 : i + (j + 5) = i + j + 5 := by omega
              have he9 : i + (j + 9) = i + j + 9 := by omega
              rw [he5, he9]
          · rw [if_neg h5455, if_neg h5455, ih i (j + 4 + dsz)]
            have he : i + (j + 4 + dsz) = i + j + 4 + dsz := by omega
            rw [he]
    · have hlt' : ¬ j < (d.drop i).length := by
        rw [List.length_drop]; omega
      rw [if_neg hlt', if_neg hlt]

theorem decodeLoop_fuel_irrelevant (d : List Nat) :
    ∀ (fuel1 fuel2 offset : Nat), d.length - offset < fuel1 →
      d.length - offset < fuel2 →
      decodeLoop d fuel1 offset = decodeLoop d fuel2 offset := by
  intro fuel1
  induction fuel1 with
  | zero => intro fuel2 offset h1 h2; omega
  | succ fuel1 ih =>
    intro fuel2 offset h1 h2
    cases fuel2 with
    | zero => omega
    | succ fuel2 =>
      simp only [decodeLoop]
      by_cases hlt : offset < d.length
      · rw [if_pos hlt, if_pos hlt]
        rcases readU16 d offset with _ | hid
        · rfl
        · rcases readU16 d (offset + 2) with _ | dsz
          · rfl
          · simp only
            by_cases h5455 : hid = 0x5455
            · rw [if_pos h5455, if_pos h5455]
            · rw [if_neg h5455, if_neg h5455]
              exact ih fuel2 (offset + 4 + dsz) (by omega) (by omega)
      · rw [if_neg hlt, if_neg hlt]

theorem byteAt_eq_some_of_lt : ∀ (d : List Nat) (k : Nat), k < d.length →
    ∃ v, byteAt d k = some v := by
  intro d
  induction d with
  | nil => intro k h; simp at h
  | cons b rest ih =>
    intro k h
    cases k with
    | zero => exact ⟨b, rfl⟩
    | succ k => exact ih k (by simpa using h)

theorem readU32_eq_some_of_le (d : List Nat) (i : Nat) (h : i + 4 ≤ d.length) :
    ∃ v, readU32 d i = some v := by
  obtain ⟨v0, h0⟩ := byteAt_eq_some_of_lt d i (by omega)
  obtain ⟨v1, h1⟩ := byteAt_eq_some_of_lt d (i + 1) (by omega)
  obtain ⟨v2, h2⟩ := byteAt_eq_some_of_lt d (i + 2) (by omega)
  obtain ⟨v3, h3⟩ := byteAt_eq_some_of_lt d (i + 3) (by omega)
  exact ⟨_, by rw [readU32, h0, h1, h2, h3]⟩

theorem decodeLoop_non5455 (d : List Nat) (h : WFNon5455 d) :
    ∀ fuel, d.length < fuel → decodeLoop d fuel 0 = .ok (none, none) := by
  induction h with
  | nil =>
    intro fuel hf
    cases fuel with
    | zero => omega
    | succ f => simp [decodeLoop]
  | cons b0 b1 b2 b3 rest hid hsz htail ih =>
    intro fuel hf
    cases fuel with
    | zero => simp at hf
    | succ f =>
      have hlen : (b0 :: b1 :: b2 :: b3 :: rest).length = 4 + rest.length := by
        simp; omega
      simp only [decodeLoop]
      rw [if_pos (by simp)]
      have r0 : readU16 (b0 :: b1 :: b2 :: b3 :: rest) 0 = some (b0 + 256 * b1) := rfl
      have r2 : readU16 (b0 :: b1 :: b2 :: b3 :: rest) (0 + 2) = some (b2 + 256 * b3) := rfl
      rw [r0, r2]
      simp only
      rw [if_neg hid]
      have hdrop : (b0 :: b1 :: b2 :: b3 :: rest).drop (0 + 4 + (b2 + 256 * b3)) =
          rest.drop (b2 + 256 * b3) := by
        have he : 0 + 4 + (b2 + 256 * b3) = 4 + (b2 + 256 * b3) := by omega
        rw [he, ← List.drop_drop]
        rfl
      have hs := decodeLoop_shift (b0 :: b1 :: b2 :: b3 :: rest) f
        (0 + 4 + (b2 + 256 * b3)) 0
      rw [hdrop] at hs
      rw [Nat.add_zero] at hs
      rw [← hs]
      exact ih f (by rw [hlen] at hf; rw [List.length_drop]; omega)

theorem decodeLoop_append_non5455 (pre : List Nat) (h : WFNon5455 pre) :
    ∀ (suf : List Nat) (fuel : Nat), (pre ++ suf).length < fuel →
      decodeLoop (pre ++ suf) fuel 0 = decodeLoop suf fuel 0 := by
  induction h with
  | nil => intro suf fuel hf; rfl
  | cons b0 b1 b2 b3 rest hid hsz htail ih =>
    intro suf fuel hf
    cases fuel with
    | zero => simp at hf
    | succ f =>
      have hlen : ((b0 :: b1 :: b2 :: b3 :: rest) ++ suf).length =
          4 + rest.length + suf.length := by simp; omega
      conv =>
        lhs
        simp only [decodeLoop]
      rw [if_pos (by simp)]
      have r0 : readU16 ((b0 :: b1 :: b2 :: b3 :: rest) ++ suf) 0 =
          some (b0 + 256 * b1) := rfl
      have r2 : readU16 ((b0 :: b1 :: b2 :: b3 :: rest) ++ suf) (0 + 2) =
          some (b2 + 256 * b3) := rfl
      rw [r0, r2]
      simp only
      rw [if_neg hid]
      have hdrop : ((b0 :: b1 :: b2 :: b3 :: rest) ++ suf).drop
          (0 + 4 + (b2 + 256 * b3)) = rest.drop (b2 + 256 * b3) ++ suf := by
        have he : (b0 :: b1 :: b2 :: b3 :: rest) ++ suf =
            b0 :: b1 :: b2 :: b3 :: (rest ++ suf) := by simp
        have he2 : 0 + 4 + (b2 + 256 * b3) = 4 + (b2 + 256 * b3) := by omega
        rw [he, he2, ← List.drop_drop]
        show (rest ++ suf).drop (b2 + 256 * b3) = _
        exact List.drop_append_of_le_length hsz
      have hs := decodeLoop_shift ((b0 :: b1 :: b2 :: b3 :: rest) ++ suf) f
        (0 + 4 + (b2 + 256 * b3)) 0
      rw [hdrop] at hs
      rw [Nat.add_zero] at hs
      rw [← hs]
      have hstep := ih suf f (by
        rw [hlen] at hf
        simp only [List.length_append, List.length_drop]
        omega)
      rw [hstep]
      exact decodeLoop_fuel_irrelevant suf f (f + 1) 0 (by
        rw [hlen] at hf; omega) (by rw [hlen] at hf; omega)

theorem decode_extended_timestamp_append (pre suf : List Nat)
    (h : WFNon5455 pre) :
    decode_extended_timestamp (pre ++ suf) = decode_extended_timestamp suf := by
  rw [decode_extended_timestamp, decode_extended_timestamp]
  rw [decodeLoop_append_non5455 pre h suf ((pre ++ suf).length + 1) (by omega)]
  exact decodeLoop_fuel_irrelevant suf ((pre ++ suf).length + 1)
    (suf.length + 1) 0 (by simp; omega) (by omega)

theorem decode_extended_timestamp_wf_ok (d : List Nat) (h : WFExtra d) :
    ∃ c m, decode_extended_timestamp d = .ok (c, m) := by
  rw [decode_extended_timestamp]
  have hf : d.length < d.length + 1 := by omega
  generalize d.length + 1 = fuel at hf ⊢
  induction h generalizing fuel with
  | nil =>
    cases fuel with
    | zero => omega
    | succ f => exact ⟨none, none, by simp [decodeLoop]⟩
  | ts b0 b1 b2 b3 flags rest2 hid hneed =>
    cases fuel with
    | zero => omega
    | succ f =>
      have hlen : (b0 :: b1 :: b2 :: b3 :: flags :: rest2).length =
          5 + rest2.length := by simp; omega
      simp only [decodeLoop]
      rw [if_pos (by simp)]
      have r0 : readU16 (b0 :: b1 :: b2 :: b3 :: flags :: rest2) 0 =
          some (b0 + 256 * b1) := rfl
      have r2 : readU16 (b0 :: b1 :: b2 :: b3 :: flags :: rest2) (0 + 2) =
          some (b2 + 256 * b3) := rfl
      have r4 : readU8 (b0 :: b1 :: b2 :: b3 :: flags :: rest2) (0 + 4) =
          some flags := rfl
      rw [r0, r2]
      simp only
      rw [if_pos hid, r4]
      simp only
      by_cases h1 : flags &&& 1 ≠ 0
      · rw [if_pos h1] at hneed ⊢
        by_cases h4 : flags &&& 4 ≠ 0
        · rw [if_pos h4] at hneed
          obtain ⟨m, hm⟩ := readU32_eq_some_of_le
            (b0 :: b1 :: b2 :: b3 :: flags :: rest2) (0 + 5) (by rw [hlen]; omega)
          obtain ⟨c, hc⟩ := readU32_eq_some_of_le
            (b0 :: b1 :: b2 :: b3 :: flags :: rest2) (0 + 9) (by rw [hlen]; omega)
          rw [hm]
          simp only
          rw [if_pos h4, hc]
          exact ⟨some c, some m, rfl⟩
        · rw [if_neg h4] at hneed
          obtain ⟨m, hm⟩ := readU32_eq_some_of_le
            (b0 :: b1 :: b2 :: b3 :: flags :: rest2) (0 + 5) (by rw [hlen]; omega)
          rw [hm]
          simp only
          rw [if_neg h4]
          exact ⟨none, some m, rfl⟩
      · rw [if_neg h1] at hneed ⊢
        by_cases h4 : flags &&& 4 ≠ 0
        · rw [if_pos h4] at hneed ⊢
          obtain ⟨c, hc⟩ := readU32_eq_some_of_le
            (b0 :: b1 :: b2 :: b3 :: flags :: rest2) (0 + 5) (by rw [hlen]; omega)
          rw [hc]
          exact ⟨some c, none, rfl⟩
        · rw [if_neg h4]
          exact ⟨none, none, rfl⟩
  | other b0 b1 b2 b3 rest hid hsz htail ih =>
    cases fuel with
    | zero => omega
    | succ f =>
      have hlen : (b0 :: b1 :: b2 :: b3 :: rest).length = 4 + rest.length := by
        simp; omega
      simp only [decodeLoop]
      rw [if_pos (by simp)]
      have r0 : readU16 (b0 :: b1 :: b2 :: b3 :: rest) 0 = some (b0 + 256 * b1) := rfl
      have r2 : readU16 (b0 :: b1 :: b2 :: b3 :: rest) (0 + 2) = some (b2 + 256 * b3) := rfl
      rw [r0, r2]
      simp only
      rw [if_neg hid]
      have hdrop : (b0 :: b1 :: b2 :: b3 :: rest).drop (0 + 4 + (b2 + 256 * b3)) =
          rest.drop (b2 + 256 * b3) := by
        have he : 0 + 4 + (b2 + 256 * b3) = 4 + (b2 + 256 * b3) := by omega
        rw [he, ← List.drop_drop]
        rfl
      have hs := decodeLoop_shift (b0 :: b1 :: b2 :: b3 :: rest) f
        (0 + 4 + (b2 + 256 * b3)) 0
      rw [hdrop] at hs
      rw [Nat.add_zero] at hs
      rw [← hs]
      exact ih f (by
        rw [hlen] at hf
        rw [List.length_drop]
        omega)

/-! ## Timestamp bookkeeping invariants -/

theorem webLoop_infos (env : WebEnv) (df : String) (force first : Bool) :
    ∀ (items : List WebFile) (acc : List String) (cp : List (String × String))
      (fi : List (String × FileInfo)) (fst : Option String) (pl : List String)
      (cp' : List (String × String)) (fi' : List (String × FileInfo)),
      webLoop env df force first items acc cp fi = (fst, pl, cp', fi') →
      ∀ lp v, lookupA fi' lp = some v → lookupA fi lp = some v ∨
        ∃ w, w ∈ items ∧
          v = ⟨w.path,
            some (if w.ctime ≠ 0 then w.ctime else env.hdrCtime w.path),
            some (if w.mtime ≠ 0 then w.mtime else env.hdrMtime w.path)⟩ := by
  intro items
  induction items with
  | nil =>
    intro acc cp fi fst pl cp' fi' h lp v hv
    simp only [webLoop] at h
    simp at h
    obtain ⟨-, -, -, h4⟩ := h
    subst h4
    exact Or.inl hv
  | cons w rest ih =>
    intro acc cp fi fst pl cp' fi' h lp v hv
    simp only [webLoop] at h
    split at h
    · rcases ih _ _ _ _ _ _ _ h lp v hv with hl | ⟨w', hw', hv'⟩
      · exact Or.inl hl
      · exact Or.inr ⟨w', List.mem_cons_of_mem _ hw', hv'⟩
    · split at h
      · split at h
        · split at h
          · -- first = true: immediate return with the updated maps
            simp at h
            obtain ⟨-, -, -, h4⟩ := h
            subst h4
            rw [lookupA_setA] at hv
            split at hv
            · simp at hv
              refine Or.inr ⟨w, List.mem_cons_self .., ?_⟩
              simp only [ne_eq, ite_not]
              exact hv.symm
            · exact Or.inl hv
          · rcases ih _ _ _ _ _ _ _ h lp v hv with hl | ⟨w', hw', hv'⟩
            · rw [lookupA_setA] at hl
              split at hl
              · simp at hl
                refine Or.inr ⟨w, List.mem_cons_self .., ?_⟩
                simp only [ne_eq, ite_not]
                exact hl.symm
              · exact Or.inl hl
            · exact Or.inr ⟨w', List.mem_cons_of_mem _ hw', hv'⟩
        · rcases ih _ _ _ _ _ _ _ h lp v hv with hl | ⟨w', hw', hv'⟩
          · exact Or.inl hl
          · exact Or.inr ⟨w', List.mem_cons_of_mem _ hw', hv'⟩
      · split at h
        · simp at h
          obtain ⟨-, -, -, h4⟩ := h
          subst h4
          exact Or.inl hv
        · rcases ih _ _ _ _ _ _ _ h lp v hv with hl | ⟨w', hw', hv'⟩
          · exact Or.inl hl
          · exact Or.inr ⟨w', List.mem_cons_of_mem _ hw', hv'⟩

theorem web_search_infos (env : WebEnv) (s : WebSeeker) (p : String)
    (ff force : Bool) (r : SearchResult) (s1 : WebSeeker)
    (h : FileSeekerWeb.search env s p ff force = (r, s1)) :
    ∀ lp v, lookupA s1.file_infos lp = some v → lookupA s.file_infos lp = some v ∨
      ∃ w, w ∈ env.apiResults p ∧
        v = ⟨w.path,
          some (if w.ctime ≠ 0 then w.ctime else env.hdrCtime w.path),
          some (if w.mtime ≠ 0 then w.mtime else env.hdrMtime w.path)⟩ := by
  intro lp v hv
  rw [FileSeekerWeb.search] at h
  split at h
  · simp at h
    obtain ⟨-, h2⟩ := h
    subst h2
    exact Or.inl hv
  · rcases ht : webLoop env s.data_folder force ff (env.apiResults p) []
        s.copied s.file_infos with ⟨fst, pl, cp, fi⟩
    rw [ht] at h
    have hinv := webLoop_infos env s.data_folder force ff (env.apiResults p)
      [] s.copied s.file_infos fst pl cp fi ht
    rcases fst with _ | y
    · simp at h
      obtain ⟨-, h2⟩ := h
      have hfi : s1.file_infos = fi := by rw [← h2]
      rw [hfi] at hv
      exact hinv lp v hv
    · simp at h
      obtain ⟨-, h2⟩ := h
      have hfi : s1.file_infos = fi := by rw [← h2]
      rw [hfi] at hv
      exact hinv lp v hv

theorem zipLoop_utimes (env : ZipEnv) (force first : Bool) (pat : String → Bool) :
    ∀ (items : List String) (epv : Option String) (acc : List String)
      (cp : List (String × String)) (fi : List (String × FileInfo))
      (ut : List (String × Nat)) (fst : Option String) (pl : List String)
      (cp' : List (String × String)) (fi' : List (String × FileInfo))
      (ut' : List (String × Nat)),
      zipLoop env force first pat items epv acc cp fi ut =
        .ok (fst, pl, cp', fi', ut') →
      ∀ lp t, lookupA ut' lp = some t → lookupA ut lp = some t ∨
        ∃ m, m ∈ items ∧ lp = env.extractedPathOf m ∧ t = env.dosTimeOf m := by
  intro items
  induction items with
  | nil =>
    intro epv acc cp fi ut fst pl cp' fi' ut' h lp t hv
    simp only [zipLoop] at h
    simp at h
    obtain ⟨-, -, -, -, h5⟩ := h
    subst h5
    exact Or.inl hv
  | cons m rest ih =>
    intro epv acc cp fi ut fst pl cp' fi' ut' h lp t hv
    have weaken : (lookupA ut lp = some t ∨
        ∃ m', m' ∈ rest ∧ lp = env.extractedPathOf m' ∧ t = env.dosTimeOf m') →
        lookupA ut lp = some t ∨
        ∃ m', m' ∈ m :: rest ∧ lp = env.extractedPathOf m' ∧ t = env.dosTimeOf m' := by
      rintro (hl | ⟨m', hm', hv'⟩)
      · exact Or.inl hl
      · exact Or.inr ⟨m', List.mem_cons_of_mem _ hm', hv'⟩
    simp only [zipLoop] at h
    repeat' split at h
    all_goals first
    | exact weaken (ih _ _ _ _ _ _ _ _ _ _ h lp t hv)
    | exact Except.noConfusion h
    | (simp only [Except.ok.injEq, Prod.mk.injEq] at h
       obtain ⟨-, -, -, -, h5⟩ := h
       subst h5
       first
       | exact Or.inl hv
       | (rw [lookupA_setA] at hv
          split at hv
          · simp at hv
            rename_i hlp
            exact Or.inr ⟨m, List.mem_cons_self .., hlp, hv.symm⟩
          · exact Or.inl hv))
    | (rcases ih _ _ _ _ _ _ _ _ _ _ h lp t hv with hl | ⟨m', hm', hv'⟩
       · rw [lookupA_setA] at hl
         split at hl
         · simp at hl
           rename_i hlp
           exact Or.inr ⟨m, List.mem_cons_self .., hlp, hl.symm⟩
         · exact Or.inl hl
       · exact Or.inr ⟨m', List.mem_cons_of_mem _ hm', hv'⟩)

theorem zipLoop_infos (env : ZipEnv) (force first : Bool) (pat : String → Bool) :
    ∀ (items : List String) (epv : Option String) (acc : List String)
      (cp : List (String × String)) (fi : List (String × FileInfo))
      (ut : List (String × Nat)) (fst : Option String) (pl : List String)
      (cp' : List (String × String)) (fi' : List (String × FileInfo))
      (ut' : List (String × Nat)),
      zipLoop env force first pat items epv acc cp fi ut =
        .ok (fst, pl, cp', fi', ut') →
      ∀ lp v, lookupA fi' lp = some v → lookupA fi lp = some v ∨
        ∃ m, m ∈ items ∧ lp = env.extractedPathOf m ∧
          ∃ c md, decode_extended_timestamp (env.extraOf m) = .ok (c, md) ∧
            v = ⟨m, c, md⟩ := by
  intro items
  induction items with
  | nil =>
    intro epv acc cp fi ut fst pl cp' fi' ut' h lp v hv
    simp only [zipLoop] at h
    simp at h
    obtain ⟨-, -, -, h4, -⟩ := h
    subst h4
    exact Or.inl hv
  | cons m rest ih =>
    intro epv acc cp fi ut fst pl cp' fi' ut' h lp v hv
    have weaken : (lookupA fi lp = some v ∨
        ∃ m', m' ∈ rest ∧ lp = env.extractedPathOf m' ∧
          ∃ c md, decode_extended_timestamp (env.extraOf m') = .ok (c, md) ∧
            v = ⟨m', c, md⟩) →
        lookupA fi lp = some v ∨
        ∃ m', m' ∈ m :: rest ∧ lp = env.extractedPathOf m' ∧
          ∃ c md, decode_extended_timestamp (env.extraOf m') = .ok (c, md) ∧
            v = ⟨m', c, md⟩ := by
      rintro (hl | ⟨m', hm', hv'⟩)
      · exact Or.inl hl
      · exact Or.inr ⟨m', List.mem_cons_of_mem _ hm', hv'⟩
    simp only [zipLoop] at h
    repeat' split at h
    all_goals first
    | exact weaken (ih _ _ _ _ _ _ _ _ _ _ h lp v hv)
    | exact Except.noConfusion h
    | (simp only [Except.ok.injEq, Prod.mk.injEq] at h
       obtain ⟨-, -, -, h4, -⟩ := h
       subst h4
       first
       | exact Or.inl hv
       | (rw [lookupA_setA] at hv
          split at hv
          · simp at hv
            rename_i hlp
            exact Or.inr ⟨m, List.mem_cons_self .., hlp, _, _, by assumption, hv.symm⟩
          · exact Or.inl hv))
    | (rcases ih _ _ _ _ _ _ _ _ _ _ h lp v hv with hl | ⟨m', hm', hv'⟩
       · rw [lookupA_setA] at hl
         split at hl
         · simp at hl
           rename_i hlp
           exact Or.inr ⟨m, List.mem_cons_self .., hlp, _, _, by assumption, hl.symm⟩
         · exact Or.inl hl
       · exact Or.inr ⟨m', List.mem_cons_of_mem _ hm', hv'⟩)

theorem zip_search_records (env : ZipEnv) (s : ZipSeeker) (p : String)
    (ff force : Bool) (r : SearchResult) (s1 : ZipSeeker)
    (h : FileSeekerZip.search env s p ff force = .ok (r, s1)) :
    (∀ lp t, lookupA s1.utimes lp = some t → lookupA s.utimes lp = some t ∨
      ∃ m, m ∈ s.name_list ∧ lp = env.extractedPathOf m ∧ t = env.dosTimeOf m) ∧
    (∀ lp v, lookupA s1.file_infos lp = some v →
      lookupA s.file_infos lp = some v ∨
      ∃ m, m ∈ s.name_list ∧ lp = env.extractedPathOf m ∧
        ∃ c md, decode_extended_timestamp (env.extraOf m) = .ok (c, md) ∧
          v = ⟨m, c, md⟩) := by
  rw [FileSeekerZip.search] at h
  split at h
  · simp at h
    obtain ⟨-, h2⟩ := h
    subst h2
    exact ⟨fun lp t hv => Or.inl hv, fun lp v hv => Or.inl hv⟩
  · rcases ht : zipLoop env force ff (fun cand => fnmatch p cand) s.name_list
        none [] s.copied s.file_infos s.utimes with e | ⟨fst, pl, cp, fi, ut⟩
    · rw [ht] at h
      exact Except.noConfusion h
    · rw [ht] at h
      have hut := zipLoop_utimes env force ff (fun cand => fnmatch p cand)
        s.name_list none [] s.copied s.file_infos s.utimes fst pl cp fi ut ht
      have hfi := zipLoop_infos env force ff (fun cand => fnmatch p cand)
        s.name_list none [] s.copied s.file_infos s.utimes fst pl cp fi ut ht
      rcases fst with _ | y
      · simp at h
        obtain ⟨-, h2⟩ := h
        constructor
        · intro lp t hv
          exact hut lp t (by rw [← h2] at hv; exact hv)
        · intro lp v hv
          exact hfi lp v (by rw [← h2] at hv; exact hv)
      · simp at h
        obtain ⟨-, h2⟩ := h
        constructor
        · intro lp t hv
          exact hut lp t (by rw [← h2] at hv; exact hv)
        · intro lp v hv
          exact hfi lp v (by rw [← h2] at hv; exact hv)

/-! ## build_files_list membership -/

mutual
theorem mem_build_files_list (directory : String) (readable : Bool)
    (entries : List FSNode) (p : String) :
    p ∈ build_files_list directory readable entries ↔
      p ∈ reachableFiles directory readable entries ∨
      p ∈ reachableDirs directory readable entries := by
  rw [build_files_list, reachableFiles, reachableDirs]
  by_cases hr : readable
  · rw [if_pos hr, if_pos hr, if_pos hr]
    exact mem_buildItems directory entries p
  · rw [if_neg hr, if_neg hr, if_neg hr]
    simp
termination_by (sizeOf entries, 1)
theorem mem_buildItems (directory : String) (l : List FSNode) (p : String) :
    p ∈ buildItems directory l ↔
      p ∈ filesItems directory l ∨ p ∈ dirsItems directory l := by
  match l with
  | [] => simp [buildItems, filesItems, dirsItems]
  | .file n :: rest =>
    rw [buildItems, filesItems, dirsItems]
    simp only [List.mem_cons]
    rw [mem_buildItems directory rest p]
    tauto
  | .dir n r cs :: rest =>
    rw [buildItems, filesItems, dirsItems]
    simp only [List.mem_cons, List.mem_append]
    rw [mem_buildItems directory rest p,
      mem_build_files_list (directory ++ "/" ++ n) r cs p]
    tauto
termination_by (sizeOf l, 0)
end

/-! ## Claims -/

/-- Claim C1, counterexample: against a DirectorySeeker over root `/data`
whose index holds the file `/data/a/b.db` (relative path `a/b.db`),
`search("*/a/b.db")` returns a non-empty result but `search("root/a/b.db")`
and `search("a/b.db")` both return the empty list — the three calls do not
all return the same non-empty result, because matching only tests the
compiled raw pattern against `root/` + the indexed absolute path. -/
theorem claim_C1_counterexample :
    (FileSeekerDir.search ⟨fun _ => true, fun _ => 3, fun _ => 4⟩
      ⟨"/data", "/out", ["/data/a/b.db"], [], [], []⟩ "*/a/b.db" false false).1 =
      .many ["/out/a/b.db"] ∧
    (FileSeekerDir.search ⟨fun _ => true, fun _ => 3, fun _ => 4⟩
      ⟨"/data", "/out", ["/data/a/b.db"], [], [], []⟩ "root/a/b.db" false false).1 =
      .many [] ∧
    (FileSeekerDir.search ⟨fun _ => true, fun _ => 3, fun _ => 4⟩
      ⟨"/data", "/out", ["/data/a/b.db"], [], [], []⟩ "a/b.db" false false).1 =
      .many [] := by
  refine ⟨by decide, by decide, by decide⟩

/-- Claim C1, amended: for a fresh DirectorySeeker over any non-empty root
directory `d` whose index holds exactly the file `d ++ "/a/b.db"`, only
`search("*/a/b.db")` returns a non-empty result; `search("root/a/b.db")`
and `search("a/b.db")` return the empty list, because `search` matches the
compiled raw pattern against `"root/" ++ candidate` only — the pattern is
never prefixed with `root/`, and there is no second attempt of the raw
pattern against the raw candidate. -/
theorem claim_C1_amended (env : DirEnv) (d df : String) (hd : d ≠ "") :
    (∃ q, (FileSeekerDir.search env ⟨d, df, [d ++ "/a/b.db"], [], [], []⟩
        "*/a/b.db" false false).1 = .many [q]) ∧
    (FileSeekerDir.search env ⟨d, df, [d ++ "/a/b.db"], [], [], []⟩
        "root/a/b.db" false false).1 = .many [] ∧
    (FileSeekerDir.search env ⟨d, df, [d ++ "/a/b.db"], [], [], []⟩
        "a/b.db" false false).1 = .many [] := by
  have m1 := fnmatch_star_abdb d
  have m2 := fnmatch_literal_root_no_match d hd
  have m3 := fnmatch_literal_bare_no_match d
  refine ⟨?_, ?_, ?_⟩
  · rcases hcopy : env.copyOk (d ++ "/a/b.db") with _ | _ <;>
      simp [FileSeekerDir.search, dirLoop, lookupA, m1, hcopy]
  · simp [FileSeekerDir.search, dirLoop, lookupA, m2]
  · simp [FileSeekerDir.search, dirLoop, lookupA, m3]

/-- Claim C1, witness for the amended statement at root `/data`. -/
theorem claim_C1_witness :
    (∃ q, (FileSeekerDir.search ⟨fun _ => true, fun _ => 0, fun _ => 0⟩
        ⟨"/data", "/out", ["/data" ++ "/a/b.db"], [], [], []⟩
        "*/a/b.db" false false).1 = .many [q]) ∧
    (FileSeekerDir.search ⟨fun _ => true, fun _ => 0, fun _ => 0⟩
        ⟨"/data", "/out", ["/data" ++ "/a/b.db"], [], [], []⟩
        "root/a/b.db" false false).1 = .many [] ∧
    (FileSeekerDir.search ⟨fun _ => true, fun _ => 0, fun _ => 0⟩
        ⟨"/data", "/out", ["/data" ++ "/a/b.db"], [], [], []⟩
        "a/b.db" false false).1 = .many [] :=
  claim_C1_amended ⟨fun _ => true, fun _ => 0, fun _ => 0⟩ "/data" "/out" (by decide)

/-- Claim C2, counterexample: for FileSeekerDir with three matched files
where copying the second (`/r/f2`) fails, the returned list still contains
the failed item's destination path `/out/f2` (which was never copied:
`copied` has no entry for `/r/f2`), so the failed item is not omitted from
the result set. -/
theorem claim_C2_counterexample :
    (FileSeekerDir.search ⟨fun it => !(it == "/r/f2"), fun _ => 3, fun _ => 4⟩
        ⟨"/r", "/out", ["/r/f1", "/r/f2", "/r/f3"], [], [], []⟩ "*" false false).1 =
      .many ["/out/f1", "/out/f2", "/out/f3"] ∧
    lookupA (FileSeekerDir.search ⟨fun it => !(it == "/r/f2"), fun _ => 3, fun _ => 4⟩
        ⟨"/r", "/out", ["/r/f1", "/r/f2", "/r/f3"], [], [], []⟩ "*" false false).2.copied
      "/r/f2" = none := by
  refine ⟨by decide, by decide⟩

/-- Claim C2, amended: when extracting item 2 of 3 matches fails, every
backend's search continues and the successfully materialized items 1 and 3
are in the result, but only FileSeekerWeb omits the failed item (it
`continue`s): FileSeekerDir and FileSeekerTar still append the failed
item's computed destination path, and FileSeekerZip appends the stale
`extracted_path` left over from the previous member (here item 1's path,
twice). -/
theorem claim_C2_amended :
    (FileSeekerDir.search ⟨fun it => !(it == "/r/f2"), fun _ => 3, fun _ => 4⟩
        ⟨"/r", "/out", ["/r/f1", "/r/f2", "/r/f3"], [], [], []⟩ "*" false false).1 =
      .many ["/out/f1", "/out/f2", "/out/f3"] ∧
    (FileSeekerTar.search ⟨fun n => n, fun n => !(n == "f2")⟩
        ⟨[⟨"f1", false, 5⟩, ⟨"f2", false, 5⟩, ⟨"f3", false, 5⟩], "/out",
          [], [], []⟩ "*" false false).1 =
      .many ["/out/f1", "/out/f2", "/out/f3"] ∧
    (FileSeekerWeb.search ⟨fun _ => [⟨"f1", 0, 0⟩, ⟨"f2", 0, 0⟩, ⟨"f3", 0, 0⟩],
        fun q => !(q == "f2"), fun _ => 0, fun _ => 0, fun q => q⟩
        ⟨"/out", [], [], []⟩ "*" false false).1 =
      .many ["/out/f1", "/out/f3"] ∧
    Except.map (fun pr => pr.1)
      (FileSeekerZip.search ⟨fun m => !(m == "f2"), fun m => "/out/" ++ m,
        fun _ => [], fun _ => 7⟩
        ⟨["f1", "f2", "f3"], "/out", [], [], [], []⟩ "*" false false) =
      .ok (.many ["/out/f1", "/out/f1", "/out/f3"]) := by
  refine ⟨by decide, by decide, by decide, by decide⟩

/-- Claim C3: evaluation of the code at the failing input — when
`zip_file.extract` raises on the first matched member of a search (member
`a.db`, not previously copied), the Python local `extracted_path` is still
unbound at `pathlist.append(extracted_path)`, and the resulting
`UnboundLocalError` propagates out of `FileSeekerZip.search` (modelled by
`.error ()`), contradicting the claim that search never throws for
extraction issues. -/
theorem claim_C3_bug_eval :
    FileSeekerZip.search ⟨fun _ => false, fun m => "/out/" ++ m, fun _ => [],
        fun _ => 7⟩
      ⟨["a.db"], "/out", [], [], [], []⟩ "*a.db" false false = .error () := by
  decide

/-- Claim C4: decode_extended_timestamp round-trip. After any well-formed
prefix of non-0x5455 records, a 0x5455 record with flag byte 0b101 followed
by mtime=2000 then ctime=1000 (little-endian u32) decodes to
`(creation, modification) = (some 1000, some 2000)`; and a well-formed
extra field with no 0x5455 record decodes to `(none, none)`. -/
theorem claim_C4 :
    (∀ pre : List Nat, WFNon5455 pre →
      decode_extended_timestamp (pre ++ tsRecord) = .ok (some 1000, some 2000)) ∧
    (∀ d : List Nat, WFNon5455 d →
      decode_extended_timestamp d = .ok (none, none)) := by
  constructor
  · intro pre h
    rw [decode_extended_timestamp_append pre tsRecord h]
    decide
  · intro d h
    rw [decode_extended_timestamp]
    exact decodeLoop_non5455 d h (d.length + 1) (by omega)

/-- Claim C4, witness: the record list `[1, 0, 2, 0, 9, 9]` (one complete
record with header 1 and size 2) is a well-formed non-0x5455 prefix;
decoding it followed by the timestamp record yields `(1000, 2000)`, and
decoding it alone yields `(none, none)`. -/
theorem claim_C4_witness :
    decode_extended_timestamp ([1, 0, 2, 0, 9, 9] ++ tsRecord) =
      .ok (some 1000, some 2000) ∧
    decode_extended_timestamp [1, 0, 2, 0, 9, 9] = .ok (none, none) := by
  have hwf : WFNon5455 [1, 0, 2, 0, 9, 9] :=
    WFNon5455.cons 1 0 2 0 [9, 9] (by decide) (by decide) WFNon5455.nil
  exact ⟨claim_C4.1 _ hwf, claim_C4.2 _ hwf⟩

/-- Claim C5, counterexample: on the truncated extra field
`[0x55, 0x54]` (a record header cut off after two bytes),
`struct.unpack_from('<HH', ...)` raises `struct.error`, so
decode_extended_timestamp raises instead of returning a pair of absent
timestamps. -/
theorem claim_C5_counterexample :
    decode_extended_timestamp [0x55, 0x54] = .error () := by
  decide

/-- Claim C5, amended: decode_extended_timestamp terminates on every byte
sequence, and returns a pair of optional timestamps whenever every record
header it scans — and the flag byte and flagged timestamp fields of the
0x5455 record — lie within the buffer; on truncated data it instead raises
`struct.error` (caught by the surrounding `try` of
`FileSeekerZip.search`), rather than reporting absent values. -/
theorem claim_C5_amended (d : List Nat) (h : WFExtra d) :
    ∃ c m, decode_extended_timestamp d = .ok (c, m) :=
  decode_extended_timestamp_wf_ok d h

/-- Claim C5, witness: a single 0x5455 record with flag byte 0 decodes
without error. -/
theorem claim_C5_witness :
    ∃ c m, decode_extended_timestamp [0x55, 0x54, 9, 0, 0] = .ok (c, m) :=
  claim_C5_amended _ (WFExtra.ts 0x55 0x54 9 0 0 [] (by decide) (by decide))

/-- Claim C6, counterexample: a zip member `a.db` whose extra field carries
a 0x5455 record with modification time 2000 present, but whose DOS
date/time converts to epoch 0, is extracted with on-disk modification time
0 (the DOS value), not 2000 — the decoded extended timestamp is recorded
only in the FileInfo metadata. -/
theorem claim_C6_counterexample :
    Except.map (fun pr => lookupA pr.2.utimes "/out/a.db")
      (FileSeekerZip.search ⟨fun _ => true, fun m => "/out/" ++ m,
        fun _ => [0x55, 0x54, 5, 0, 1, 0xd0, 0x07, 0, 0], fun _ => 0⟩
        ⟨["a.db"], "/out", [], [], [], []⟩ "*" false false) = .ok (some 0) ∧
    Except.map (fun pr => lookupA pr.2.file_infos "/out/a.db")
      (FileSeekerZip.search ⟨fun _ => true, fun m => "/out/" ++ m,
        fun _ => [0x55, 0x54, 5, 0, 1, 0xd0, 0x07, 0, 0], fun _ => 0⟩
        ⟨["a.db"], "/out", [], [], [], []⟩ "*" false false) =
      .ok (some ⟨"a.db", none, some 2000⟩) ∧
    decode_extended_timestamp [0x55, 0x54, 5, 0, 1, 0xd0, 0x07, 0, 0] =
      .ok (none, some 2000) := by
  refine ⟨by decide, by decide, by decide⟩

/-- Claim C6, amended: for every zip member successfully extracted by
FileSeekerZip.search, the extracted file's on-disk modification time is
always set to the coarse DOS date/time converted to epoch seconds
(`mktime(date_time + (0, 0, -1))`), regardless of the extra field; the
decoded extended-timestamp values are recorded only in the FileInfo
metadata for the extracted path. -/
theorem claim_C6_amended (env : ZipEnv) (s : ZipSeeker) (p : String)
    (ff force : Bool) (r : SearchResult) (s1 : ZipSeeker)
    (h : FileSeekerZip.search env s p ff force = .ok (r, s1)) :
    (∀ lp t, lookupA s1.utimes lp = some t → lookupA s.utimes lp = some t ∨
      ∃ m, m ∈ s.name_list ∧ lp = env.extractedPathOf m ∧ t = env.dosTimeOf m) ∧
    (∀ lp v, lookupA s1.file_infos lp = some v →
      lookupA s.file_infos lp = some v ∨
      ∃ m, m ∈ s.name_list ∧ lp = env.extractedPathOf m ∧
        ∃ c md, decode_extended_timestamp (env.extraOf m) = .ok (c, md) ∧
          v = ⟨m, c, md⟩) :=
  zip_search_records env s p ff force r s1 h

/-- Claim C6, witness for the amended statement: the on-disk time 0
recorded for `/out/a.db` is the member's DOS value. -/
theorem claim_C6_witness :
    lookupA ([] : List (String × Nat)) "/out/a.db" = some 0 ∨
    ∃ m, m ∈ ["a.db"] ∧ "/out/a.db" = "/out/" ++ m ∧ (0 : Nat) = 0 :=
  (claim_C6_amended ⟨fun _ => true, fun m => "/out/" ++ m,
      fun _ => [0x55, 0x54, 5, 0, 1, 0xd0, 0x07, 0, 0], fun _ => 0⟩
    ⟨["a.db"], "/out", [], [], [], []⟩ "*" false false
    (.many ["/out/a.db"])
    ⟨["a.db"], "/out", [("*", ["/out/a.db"])], [("a.db", "/out/a.db")],
      [("/out/a.db", ⟨"a.db", none, some 2000⟩)], [("/out/a.db", 0)]⟩
    (by decide)).1 "/out/a.db" 0 (by decide)

/-- Claim C7, counterexample: for a root `/r` containing a readable
directory `d` with a file `f`, the eagerly built listing is
`["/r/d", "/r/d/f"]`, which contains the directory path `/r/d` —
`build_files_list` appends every scanned entry's path before checking
whether it is a directory, so the listing is not restricted to regular
files. -/
theorem claim_C7_counterexample :
    "/r/d" ∈ build_files_list "/r" true [.dir "d" true [.file "f"]] ∧
    "/r/d" ∈ reachableDirs "/r" true [.dir "d" true [.file "f"]] ∧
    "/r/d" ∉ reachableFiles "/r" true [.dir "d" true [.file "f"]] := by
  have hb : build_files_list "/r" true [.dir "d" true [.file "f"]] =
      ["/r/d", "/r/d/f"] := by
    simp [build_files_list, buildItems]
  have hdir : reachableDirs "/r" true [.dir "d" true [.file "f"]] = ["/r/d"] := by
    simp [reachableDirs, dirsItems]
  have hfile : reachableFiles "/r" true [.dir "d" true [.file "f"]] =
      ["/r/d/f"] := by
    simp [reachableFiles, filesItems]
  rw [hb, hdir, hfile]
  refine ⟨by decide, by decide, by decide⟩

/-- Claim C7, amended: the eagerly built listing contains exactly the
entries — regular files AND directories — reachable from the root through
readable directories: an unreadable directory is still listed by its
readable parent, but its contents are skipped (the `os.scandir` failure is
logged), and construction continues with the remaining entries. -/
theorem claim_C7_amended (directory : String) (readable : Bool)
    (entries : List FSNode) (p : String) :
    p ∈ build_files_list directory readable entries ↔
      p ∈ reachableFiles directory readable entries ∨
      p ∈ reachableDirs directory readable entries :=
  mem_build_files_list directory readable entries p

/-- Claim C8: for every item materialized by FileSeekerWeb.search, the
recorded FileInfo creation/modification times follow the precedence
search-index value if non-zero, else download-header value (itself 0 when
the header is absent). -/
theorem claim_C8 (env : WebEnv) (s : WebSeeker) (p : String) (ff force : Bool)
    (r : SearchResult) (s1 : WebSeeker)
    (h : FileSeekerWeb.search env s p ff force = (r, s1)) :
    ∀ lp v, lookupA s1.file_infos lp = some v →
      lookupA s.file_infos lp = some v ∨
      ∃ w, w ∈ env.apiResults p ∧
        v = ⟨w.path,
          some (if w.ctime ≠ 0 then w.ctime else env.hdrCtime w.path),
          some (if w.mtime ≠ 0 then w.mtime else env.hdrMtime w.path)⟩ :=
  web_search_infos env s p ff force r s1 h

/-- Claim C8, witness: with search-index `mtime = 500` and download header
`X-File-Mtime = 999`, the recorded modification time is 500 (the index
value), and the absent index ctime (0) falls back to the header value
42. -/
theorem claim_C8_witness :
    lookupA ([] : List (String × FileInfo)) "/out/f.db" =
      some ⟨"f.db", some 42, some 500⟩ ∨
    ∃ w, w ∈ [(⟨"f.db", 500, 0⟩ : WebFile)] ∧
      (⟨"f.db", some 42, some 500⟩ : FileInfo) =
        ⟨w.path, some (if w.ctime ≠ 0 then w.ctime else 42),
          some (if w.mtime ≠ 0 then w.mtime else 999)⟩ :=
  claim_C8 ⟨fun _ => [⟨"f.db", 500, 0⟩], fun _ => true, fun _ => 999,
      fun _ => 42, fun q => q⟩
    ⟨"/out", [], [], []⟩ "*" false false _ _ rfl
    "/out/f.db" ⟨"f.db", some 42, some 500⟩ (by decide)

/-- Claim C9: for every backend, a second `search` with the same pattern
string, `return_on_first_hit = false` and `force = false` returns the
identical result and leaves the instance state unchanged (so no item is
re-extracted and every copied SourceItem keeps its LocalPath): the pattern
cache set by the first call answers the second. -/
theorem claim_C9 :
    (∀ (env : DirEnv) (s : DirSeeker) (p : String) (r : SearchResult)
        (s1 : DirSeeker), FileSeekerDir.search env s p false false = (r, s1) →
      FileSeekerDir.search env s1 p false false = (r, s1)) ∧
    (∀ (env : TarEnv) (s : TarSeeker) (p : String) (r : SearchResult)
        (s1 : TarSeeker), FileSeekerTar.search env s p false false = (r, s1) →
      FileSeekerTar.search env s1 p false false = (r, s1)) ∧
    (∀ (env : ZipEnv) (s : ZipSeeker) (p : String) (r : SearchResult)
        (s1 : ZipSeeker),
      FileSeekerZip.search env s p false false = .ok (r, s1) →
      FileSeekerZip.search env s1 p false false = .ok (r, s1)) ∧
    (∀ (env : WebEnv) (s : WebSeeker) (p : String) (r : SearchResult)
        (s1 : WebSeeker), FileSeekerWeb.search env s p false false = (r, s1) →
      FileSeekerWeb.search env s1 p false false = (r, s1)) :=
  ⟨dir_search_idempotent, tar_search_idempotent, zip_search_idempotent,
    web_search_idempotent⟩

/-- Claim C9, witness: concrete second calls for each backend reproduce
the first call's result and state. -/
theorem claim_C9_witness :
    (FileSeekerDir.search ⟨fun _ => true, fun _ => 3, fun _ => 4⟩
      (FileSeekerDir.search ⟨fun _ => true, fun _ => 3, fun _ => 4⟩
        ⟨"/r", "/out", ["/r/f1"], [], [], []⟩ "*" false false).2 "*" false false =
      ((FileSeekerDir.search ⟨fun _ => true, fun _ => 3, fun _ => 4⟩
        ⟨"/r", "/out", ["/r/f1"], [], [], []⟩ "*" false false).1,
       (FileSeekerDir.search ⟨fun _ => true, fun _ => 3, fun _ => 4⟩
        ⟨"/r", "/out", ["/r/f1"], [], [], []⟩ "*" false false).2)) ∧
    (FileSeekerTar.search ⟨fun n => n, fun _ => true⟩
      (FileSeekerTar.search ⟨fun n => n, fun _ => true⟩
        ⟨[⟨"f1", false, 5⟩], "/out", [], [], []⟩ "*" false false).2 "*" false false =
      ((FileSeekerTar.search ⟨fun n => n, fun _ => true⟩
        ⟨[⟨"f1", false, 5⟩], "/out", [], [], []⟩ "*" false false).1,
       (FileSeekerTar.search ⟨fun n => n, fun _ => true⟩
        ⟨[⟨"f1", false, 5⟩], "/out", [], [], []⟩ "*" false false).2)) ∧
    (FileSeekerZip.search ⟨fun _ => true, fun m => m, fun _ => [], fun _ => 0⟩
      ⟨[], "/out", [("*", [])], [], [], []⟩ "*" false false =
      .ok (.many [], ⟨[], "/out", [("*", [])], [], [], []⟩)) ∧
    (FileSeekerWeb.search ⟨fun _ => [⟨"f1", 0, 0⟩], fun _ => true, fun _ => 0,
        fun _ => 0, fun q => q⟩
      (FileSeekerWeb.search ⟨fun _ => [⟨"f1", 0, 0⟩], fun _ => true, fun _ => 0,
        fun _ => 0, fun q => q⟩ ⟨"/out", [], [], []⟩ "*" false false).2 "*" false false =
      ((FileSeekerWeb.search ⟨fun _ => [⟨"f1", 0, 0⟩], fun _ => true, fun _ => 0,
        fun _ => 0, fun q => q⟩ ⟨"/out", [], [], []⟩ "*" false false).1,
       (FileSeekerWeb.search ⟨fun _ => [⟨"f1", 0, 0⟩], fun _ => true, fun _ => 0,
        fun _ => 0, fun q => q⟩ ⟨"/out", [], [], []⟩ "*" false false).2)) :=
  ⟨claim_C9.1 ⟨fun _ => true, fun _ => 3, fun _ => 4⟩
     ⟨"/r", "/out", ["/r/f1"], [], [], []⟩ "*" _ _ rfl,
   claim_C9.2.1 ⟨fun n => n, fun _ => true⟩
     ⟨[⟨"f1", false, 5⟩], "/out", [], [], []⟩ "*" _ _ rfl,
   claim_C9.2.2.1 ⟨fun _ => true, fun m => m, fun _ => [], fun _ => 0⟩
     ⟨[], "/out", [], [], [], []⟩ "*" (.many [])
     ⟨[], "/out", [("*", [])], [], [], []⟩ (by decide),
   claim_C9.2.2.2 ⟨fun _ => [⟨"f1", 0, 0⟩], fun _ => true, fun _ => 0,
       fun _ => 0, fun q => q⟩
     ⟨"/out", [], [], []⟩ "*" _ _ rfl⟩

/-- Claim C10: for every backend, after `search(p, return_on_first_hit =
True)` finds its first hit on an uncached pattern `p`, the pattern cache
holds only the single-element path list accumulated up to that hit, so a
subsequent full `search(p)` with `force = false` returns that one-element
list (and leaves the state unchanged) instead of the full match set. -/
theorem claim_C10 :
    (∀ (env : DirEnv) (s : DirSeeker) (p x : String) (s1 : DirSeeker),
      lookupA s.searched p = none →
      FileSeekerDir.search env s p true false = (.single x, s1) →
      lookupA s1.searched p = some [x] ∧
        FileSeekerDir.search env s1 p false false = (.many [x], s1)) ∧
    (∀ (env : TarEnv) (s : TarSeeker) (p x : String) (s1 : TarSeeker),
      lookupA s.searched p = none →
      FileSeekerTar.search env s p true false = (.single x, s1) →
      lookupA s1.searched p = some [x] ∧
        FileSeekerTar.search env s1 p false false = (.many [x], s1)) ∧
    (∀ (env : ZipEnv) (s : ZipSeeker) (p x : String) (s1 : ZipSeeker),
      lookupA s.searched p = none →
      FileSeekerZip.search env s p true false = .ok (.single x, s1) →
      lookupA s1.searched p = some [x] ∧
        FileSeekerZip.search env s1 p false false = .ok (.many [x], s1)) ∧
    (∀ (env : WebEnv) (s : WebSeeker) (p x : String) (s1 : WebSeeker),
      lookupA s.searched p = none →
      FileSeekerWeb.search env s p true false = (.single x, s1) →
      lookupA s1.searched p = some [x] ∧
        FileSeekerWeb.search env s1 p false false = (.many [x], s1)) :=
  ⟨dir_search_first_hit_cache, tar_search_first_hit_cache,
    zip_search_first_hit_cache, web_search_first_hit_cache⟩

/-- Claim C10, witness: concrete one-member evidence sources where the
first-hit search caches the single-element list and the follow-up full
search returns it. -/
theorem claim_C10_witness :
    (lookupA [("*", ["/out/f1"])] "*" = some ["/out/f1"] ∧
      FileSeekerDir.search ⟨fun _ => true, fun _ => 0, fun _ => 0⟩
        ⟨"/r", "/out", ["/r/f1"], [("*", ["/out/f1"])], [("/r/f1", "/out/f1")],
          [("/out/f1", ⟨"/r/f1", some 0, some 0⟩)]⟩ "*" false false =
        (.many ["/out/f1"],
          ⟨"/r", "/out", ["/r/f1"], [("*", ["/out/f1"])], [("/r/f1", "/out/f1")],
            [("/out/f1", ⟨"/r/f1", some 0, some 0⟩)]⟩)) ∧
    (lookupA [("*", ["/out/f1"])] "*" = some ["/out/f1"] ∧
      FileSeekerTar.search ⟨fun n => n, fun _ => true⟩
        ⟨[⟨"f1", false, 5⟩], "/out", [("*", ["/out/f1"])], [("f1", "/out/f1")],
          [("/out/f1", ⟨"f1", some 0, some 5⟩)]⟩ "*" false false =
        (.many ["/out/f1"],
          ⟨[⟨"f1", false, 5⟩], "/out", [("*", ["/out/f1"])], [("f1", "/out/f1")],
            [("/out/f1", ⟨"f1", some 0, some 5⟩)]⟩)) ∧
    (lookupA [("*", ["/out/f1"])] "*" = some ["/out/f1"] ∧
      FileSeekerZip.search ⟨fun _ => true, fun m => "/out/" ++ m, fun _ => [],
          fun _ => 0⟩
        ⟨["f1"], "/out", [("*", ["/out/f1"])], [("f1", "/out/f1")],
          [("/out/f1", ⟨"f1", none, none⟩)], [("/out/f1", 0)]⟩ "*" false false =
        .ok (.many ["/out/f1"],
          ⟨["f1"], "/out", [("*", ["/out/f1"])], [("f1", "/out/f1")],
            [("/out/f1", ⟨"f1", none, none⟩)], [("/out/f1", 0)]⟩)) ∧
    (lookupA [("*", ["/out/f1"])] "*" = some ["/out/f1"] ∧
      FileSeekerWeb.search ⟨fun _ => [⟨"f1", 0, 0⟩], fun _ => true, fun _ => 0,
          fun _ => 0, fun q => q⟩
        ⟨"/out", [("*", ["/out/f1"])], [("f1", "/out/f1")],
          [("/out/f1", ⟨"f1", some 0, some 0⟩)]⟩ "*" false false =
        (.many ["/out/f1"],
          ⟨"/out", [("*", ["/out/f1"])], [("f1", "/out/f1")],
            [("/out/f1", ⟨"f1", some 0, some 0⟩)]⟩)) :=
  ⟨claim_C10.1 ⟨fun _ => true, fun _ => 0, fun _ => 0⟩
      ⟨"/r", "/out", ["/r/f1"], [], [], []⟩ "*" "/out/f1"
      ⟨"/r", "/out", ["/r/f1"], [("*", ["/out/f1"])], [("/r/f1", "/out/f1")],
        [("/out/f1", ⟨"/r/f1", some 0, some 0⟩)]⟩ (by decide) (by decide),
   claim_C10.2.1 ⟨fun n => n, fun _ => true⟩
      ⟨[⟨"f1", false, 5⟩], "/out", [], [], []⟩ "*" "/out/f1"
      ⟨[⟨"f1", false, 5⟩], "/out", [("*", ["/out/f1"])], [("f1", "/out/f1")],
        [("/out/f1", ⟨"f1", some 0, some 5⟩)]⟩ (by decide) (by decide),
   claim_C10.2.2.1 ⟨fun _ => true, fun m => "/out/" ++ m, fun _ => [], fun _ => 0⟩
      ⟨["f1"], "/out", [], [], [], []⟩ "*" "/out/f1"
      ⟨["f1"], "/out", [("*", ["/out/f1"])], [("f1", "/out/f1")],
        [("/out/f1", ⟨"f1", none, none⟩)], [("/out/f1", 0)]⟩ (by decide) (by decide),
   claim_C10.2.2.2 ⟨fun _ => [⟨"f1", 0, 0⟩], fun _ => true, fun _ => 0,
        fun _ => 0, fun q => q⟩
      ⟨"/out", [], [], []⟩ "*" "/out/f1"
      ⟨"/out", [("*", ["/out/f1"])], [("f1", "/out/f1")],
        [("/out/f1", ⟨"f1", some 0, some 0⟩)]⟩ (by decide) (by decide)⟩
